import Mathlib

/-!
# Verification of the SFZZ card-game rules engine

Shallow embedding of the TypeScript sources:
* `src/services/gameLogic.ts` (move validation, AI search, dealer heuristic, mash),
* the game orchestrator component (turn advancement, round/game end handlers,
  requirement inference) — the second, authoritative `App` version in the sources.

TypeScript numbers are modelled as `Int` (card levels, sums) or `Nat` (list
lengths, indices); `Math.random()` draws are modelled as an explicit rational
parameter `r` with `0 ≤ r < 1`.  Fallible lookups become `Option`.
-/

namespace SFZZ

/-- `ResourceType` enum from `types.ts`. -/
inductive ResourceType
  | SOLDIER
  | TOWER
  | FARM
  | ORE
deriving DecidableEq, Repr

/-- The fixed enumeration order of resource types: object-literal insertion
order used by `Object.keys(counts)` in `getAIDealerRequirement`. -/
def typeList : List ResourceType := [.SOLDIER, .TOWER, .FARM, .ORE]

/-- `RESOURCE_CONFIG[t].label` from `constants.ts`. -/
def resourceLabel : ResourceType → String
  | .SOLDIER => "士兵"
  | .TOWER => "塔防"
  | .FARM => "农场"
  | .ORE => "矿石"

/-- Label of an optional resource type.  The TS code indexes
`RESOURCE_CONFIG[req.resourceType!]`; with `undefined` it would throw, which is
unreachable for well-formed requirements (the `none` branch is a placeholder). -/
def resourceLabelOpt : Option ResourceType → String
  | some t => resourceLabel t
  | none => "undefined"

/-- `Card` from `types.ts`. -/
structure Card where
  id : String
  type : ResourceType
  level : Int
deriving DecidableEq, Repr

/-- `Player` from `types.ts`. -/
structure Player where
  id : String
  name : String
  isHuman : Bool
  hand : List Card
  medals : Nat
  passedThisRound : Bool
deriving DecidableEq, Repr

/-- `RequirementType` enum from `types.ts`. -/
inductive RequirementType
  | SINGLE_FIXED
  | SINGLE_ASC
  | MIXED_ASC
deriving DecidableEq, Repr

/-- The enum's string value (`'单类型 (固定数量)'` etc.), used in descriptions. -/
def requirementTypeText : RequirementType → String
  | .SINGLE_FIXED => "单类型 (固定数量)"
  | .SINGLE_ASC => "单类型 (点数递增)"
  | .MIXED_ASC => "混合类型 (点数递增)"

/-- `RoundRequirement` from `types.ts`; `resourceType` is optional there. -/
structure RoundRequirement where
  type : RequirementType
  resourceType : Option ResourceType
  count : Nat
  description : String
deriving DecidableEq, Repr

/-- `PlayedSet` from `types.ts`.  `timestamp` (`Date.now()`) is never read by
the logic; it is carried as an opaque `Nat`. -/
structure PlayedSet where
  playerId : String
  cards : List Card
  timestamp : Nat
deriving DecidableEq, Repr

/-- `GamePhase` enum from `types.ts`. -/
inductive GamePhase
  | INIT
  | DEALER_SELECTION
  | PLAYING
  | ROUND_END
  | GAME_END
deriving DecidableEq, Repr

/-- `PLAYERS_COUNT` from `constants.ts`. -/
def PLAYERS_COUNT : Nat := 4

/-- `MASH_PROBABILITIES.BETTER` from `constants.ts`. -/
def MASH_BETTER : ℚ := 15 / 100

/-- `MASH_PROBABILITIES.WORSE` from `constants.ts`. -/
def MASH_WORSE : ℚ := 5 / 100

/-- `MASH_PROBABILITIES.SAME` from `constants.ts`. -/
def MASH_SAME : ℚ := 80 / 100

/-! ## gameLogic.ts -/

/-- `calculateHandValue` / the inline `reduce((acc, c) => acc + c.level, 0)`:
sum of the levels of a list of cards. -/
def calculateHandValue (hand : List Card) : Int :=
  hand.foldl (fun acc c => acc + c.level) 0

/-- The ascending-check loop of `validateMove` (and of `inferRequirement`):
scan adjacent pairs of the (already sorted) level list; any pair with
`levels[i] >= levels[i+1]` fails. -/
def strictAscCheck : List Int → Bool
  | [] => true
  | [_] => true
  | a :: b :: rest => if a ≥ b then false else strictAscCheck (b :: rest)

/-- `selectedCards.map(c => c.level).sort((a, b) => a - b)`: the levels of a
selection, sorted ascending.  JS `sort` with this comparator is a sort w.r.t.
`≤` on numbers; on `Int` any such sort yields the same list, here realised by
`List.insertionSort`. -/
def sortLevels (cards : List Card) : List Int :=
  List.insertionSort (· ≤ ·) (cards.map (·.level))

/-- Result record of `validateMove` (`{ valid, reason? }`). -/
structure ValidationResult where
  valid : Bool
  reason : Option String
deriving DecidableEq, Repr

/-- `validateMove` from `gameLogic.ts`: the four sequential checks — count,
resource type (single kinds), strict ascending (ascending kinds), and
match-or-beat against the last play — first failure wins. -/
def validateMove (selectedCards : List Card) (lastPlayed : Option PlayedSet)
    (req : Option RoundRequirement) : ValidationResult :=
  match req with
  | none => ⟨false, some "未设置本轮规则。"⟩
  | some req =>
    if selectedCards.length ≠ req.count then
      ⟨false, some ("必须打出 " ++ toString req.count ++ " 张牌。")⟩
    else if (req.type = .SINGLE_FIXED ∨ req.type = .SINGLE_ASC) ∧
        (selectedCards.find? (fun c => req.resourceType != some c.type)).isSome then
      ⟨false, some ("所有牌必须是 " ++ resourceLabelOpt req.resourceType ++ "。")⟩
    else if (req.type = .SINGLE_ASC ∨ req.type = .MIXED_ASC) ∧
        strictAscCheck (sortLevels selectedCards) = false then
      ⟨false, some "牌点数必须严格递增 (如 1, 2, 3)。"⟩
    else
      match lastPlayed with
      | some lp =>
        if calculateHandValue selectedCards < calculateHandValue lp.cards then
          ⟨false, some ("总点数 (" ++ toString (calculateHandValue selectedCards) ++
            ") 必须 >= 上一家 (" ++ toString (calculateHandValue lp.cards) ++ ")。"  )⟩
        else ⟨true, none⟩
      | none => ⟨true, none⟩

/-- `getCombinations` from `gameLogic.ts`.  The TS version backtracks with a
start index; structurally, the combinations of size `k+1` of `x :: xs` are
those that take `x` (extended by size-`k` combinations of `xs`, enumerated
first) followed by those that skip `x` — the same enumeration order the
backtracking produces. -/
def getCombinations : Nat → List α → List (List α)
  | 0, _ => [[]]
  | _ + 1, [] => []
  | k + 1, x :: xs => (getCombinations k xs).map (x :: ·) ++ getCombinations (k + 1) xs

/-- The candidate-card filter at the head of `getAIMove`: for single-type
requirements only cards with `c.type === req.resourceType` are kept. -/
def aiCandidates (player : Player) (req : RoundRequirement) : List Card :=
  if req.type = .SINGLE_FIXED ∨ req.type = .SINGLE_ASC then
    player.hand.filter (fun c => req.resourceType == some c.type)
  else
    player.hand

/-- `combinations.filter(combo => validateMove(combo, lastPlayed, req).valid)`
inside `getAIMove`. -/
def aiValidMoves (player : Player) (lastPlayed : Option PlayedSet)
    (req : RoundRequirement) : List (List Card) :=
  (getCombinations req.count (aiCandidates player req)).filter
    (fun combo => (validateMove combo lastPlayed (some req)).valid)

/-- The sort key relation of `validMoves.sort((a, b) => sumA - sumB)`. -/
def cheaperMove (a b : List Card) : Prop :=
  calculateHandValue a ≤ calculateHandValue b

instance : DecidableRel cheaperMove := fun a b =>
  inferInstanceAs (Decidable (calculateHandValue a ≤ calculateHandValue b))

/-- `getAIMove` from `gameLogic.ts`: filter candidates, enumerate size-`count`
combinations, keep the validator-accepted ones, and play the cheapest (JS sort
is stable, so ties keep enumeration order; `insertionSort` is the matching
stable sort). -/
def getAIMove (player : Player) (lastPlayed : Option PlayedSet)
    (req : RoundRequirement) : Option (List Card) :=
  match List.insertionSort cheaperMove (aiValidMoves player lastPlayed req) with
  | [] => none
  | best :: _ => some best

/-- The per-type occurrence count built by `counts[c.type]++` in
`getAIDealerRequirement`. -/
def countType (hand : List Card) (t : ResourceType) : Nat :=
  (hand.filter (fun c => c.type == t)).length

/-- The most-abundant-type loop of `getAIDealerRequirement`: fold over the
fixed type list with `maxCount` initialised to `-1` and a strict `>` update,
so ties keep the earliest type. -/
def bestTypeAndCount (hand : List Card) : ResourceType × Int :=
  typeList.foldl
    (fun acc t =>
      if (countType hand t : Int) > acc.2 then (t, (countType hand t : Int)) else acc)
    (.SOLDIER, -1)

/-- `getAIDealerRequirement` from `gameLogic.ts`, with the `Math.random()`
draw made an explicit parameter `rand`.  The returned `count` is
`Math.max(1, count)`; the description interpolates the pre-floor `count`. -/
def getAIDealerRequirement (player : Player) (rand : ℚ) : RoundRequirement :=
  let best := bestTypeAndCount player.hand
  let tc : RequirementType × Int :=
    if rand > 8 / 10 ∧ player.hand.length ≥ 3 then
      (.MIXED_ASC, 3)
    else if rand > 6 / 10 ∧ best.2 ≥ 2 then
      (.SINGLE_ASC, min best.2 2)
    else
      (.SINGLE_FIXED, min best.2 2)
  { type := tc.1
    resourceType := some best.1
    count := (max 1 tc.2).toNat
    description := "电脑选择: " ++ requirementTypeText tc.1 ++ " (" ++ toString tc.2 ++ " 张)" }

/-- `mashCard` from `gameLogic.ts`, with the `Math.random()` draw made an
explicit parameter `rand`: cumulative-threshold comparison against
`MASH_PROBABILITIES`, clamping the level into `[1, 7]`. -/
def mashCard (card : Card) (rand : ℚ) : Card :=
  let newLevel :=
    if rand < MASH_BETTER then min 7 (card.level + 1)
    else if rand < MASH_BETTER + MASH_WORSE then max 1 (card.level - 1)
    else card.level
  { card with level := newLevel }

/-! ## The orchestrator (`App` component)

State fields relevant to the game logic (rendering/log/timer state omitted).
In the TS source each handler issues a sequence of React state updates; here a
handler is a function `GameState → GameState` applying the same net update. -/

/-- The game-relevant slice of the `App` component state. -/
structure GameState where
  players : List Player
  phase : GamePhase
  activePlayerIndex : Nat
  dealerIndex : Nat
  roundRequirement : Option RoundRequirement
  tableStack : List PlayedSet
  selectedCardIds : List String
  roundNumber : Nat
  winner : Option Player
deriving DecidableEq, Repr

/-- Placeholder for the (crashing) TS access `currentPlayers[i]` out of range;
never reached when there are 4 players and indices are reduced mod 4. -/
def dummyPlayer : Player :=
  { id := "", name := "", isHuman := false, hand := [], medals := 0, passedThisRound := false }

/-- Outcome of `advanceTurn`: either a new active player index was set, or
`handleRoundEnd` is invoked with a round winner. -/
inductive TurnResult
  | next (idx : Nat)
  | roundEnd (winnerId : String)
deriving DecidableEq, Repr

/-- The scan loop of `advanceTurn`: up to `PLAYERS_COUNT` iterations starting
at `nextIndex`; the stack-top owner wins the round, otherwise the first
player who has not passed becomes active; else step to `(nextIndex+1) % 4`. -/
def scanNext (ps : List Player) (lastItem : Option PlayedSet) :
    Nat → Nat → Option TurnResult
  | _, 0 => none
  | nextIndex, fuel + 1 =>
    let p := ps.getD nextIndex dummyPlayer
    if lastItem.any (fun it => p.id == it.playerId) then
      some (.roundEnd p.id)
    else if p.passedThisRound = false then
      some (.next nextIndex)
    else
      scanNext ps lastItem ((nextIndex + 1) % PLAYERS_COUNT) fuel

/-- `advanceTurn` from the `App` component: run the scan; if it exhausts, end
the round for the stack owner when a stack item exists, else fall back to
advancing the active index by one. -/
def advanceTurn (ps : List Player) (stack : List PlayedSet) (cur : Nat) : TurnResult :=
  let lastItem := stack.getLast?
  match scanNext ps lastItem ((cur + 1) % PLAYERS_COUNT) PLAYERS_COUNT with
  | some r => r
  | none =>
    match lastItem with
    | some it => .roundEnd it.playerId
    | none => .next ((cur + 1) % PLAYERS_COUNT)

/-- `inferRequirement` from the `App` component: derive a `RoundRequirement`
from the human dealer's opening selection (empty → null; single type → fixed
or ascending; mixed types → ascending or null).  `types.size` is the number
of distinct card types (`Set` size), `Array.from(types)[0]` is the first
card's type by `Set` insertion order. -/
def inferRequirement (cards : List Card) : Option RoundRequirement :=
  match cards with
  | [] => none
  | c :: rest =>
    let count := (c :: rest).length
    let typesSize := ((c :: rest).map (·.type)).dedup.length
    let isStrictlyAscending := strictAscCheck (sortLevels (c :: rest))
    if typesSize = 1 then
      if count = 1 then
        some { type := .SINGLE_FIXED, resourceType := some c.type, count := count
               description := "固定: " ++ toString count ++ " 张 " ++ resourceLabel c.type }
      else if isStrictlyAscending then
        some { type := .SINGLE_ASC, resourceType := some c.type, count := count
               description := "递增: " ++ toString count ++ " 张 " ++ resourceLabel c.type }
      else
        some { type := .SINGLE_FIXED, resourceType := some c.type, count := count
               description := "固定: " ++ toString count ++ " 张 " ++ resourceLabel c.type }
    else
      if isStrictlyAscending then
        some { type := .MIXED_ASC, resourceType := none, count := count
               description := "混合递增: " ++ toString count ++ " 张" }
      else
        none

/-- `handleDealerSubmit`: install the requirement, enter `PLAYING`, clear the
table stack, and reset every pass flag. -/
def handleDealerSubmit (s : GameState) (req : RoundRequirement) : GameState :=
  { s with
    roundRequirement := some req
    phase := .PLAYING
    tableStack := []
    players := s.players.map (fun p => { p with passedThisRound := false }) }

/-- `handleRoundEnd`: award the winner one medal, make them dealer and active
player, bump the round counter, clear stack/requirement/pass flags, and return
to `DEALER_SELECTION`.  (`findIndex` is evaluated on the pre-award players in
TS; ids and order are unchanged by the award, so the index is the same.) -/
def handleRoundEnd (s : GameState) (winnerId : String) : GameState :=
  let awarded := s.players.map
    (fun p => if p.id == winnerId then { p with medals := p.medals + 1 } else p)
  let winnerIdx := s.players.findIdx (fun p => p.id == winnerId)
  { s with
    players := awarded.map (fun p => { p with passedThisRound := false })
    dealerIndex := winnerIdx
    activePlayerIndex := winnerIdx
    roundNumber := s.roundNumber + 1
    phase := .DEALER_SELECTION
    roundRequirement := none
    tableStack := [] }

/-- The comparator relation of `sort((a, b) => b.medals - a.medals)`:
descending by medals.  JS sort is stable, so ties keep player order;
`insertionSort` with this relation is the matching stable sort. -/
def moreMedals (a b : Player) : Prop := b.medals ≤ a.medals

instance : DecidableRel moreMedals := fun a b =>
  inferInstanceAs (Decidable (b.medals ≤ a.medals))

/-- `handleGameEnd`: enter `GAME_END` and set the displayed winner to the head
of the players sorted by medals descending (the players list itself is
returned unchanged). -/
def handleGameEnd (s : GameState) : GameState :=
  { s with
    phase := .GAME_END
    winner := (List.insertionSort moreMedals s.players).head? }

/-- `executePlay`: remove the played card ids from the player's hand, push the
play on the stack, clear the selection; if the hand emptied, end the game at
once, otherwise advance the turn on the updated players and stack. -/
def executePlay (s : GameState) (playerId : String) (cards : List Card) : GameState :=
  let playerIdx := s.players.findIdx (fun p => p.id == playerId)
  let player := s.players.getD playerIdx dummyPlayer
  let cardIds := cards.map (·.id)
  let newHand := player.hand.filter (fun c => !(cardIds.contains c.id))
  let updatedPlayers := s.players.set playerIdx { player with hand := newHand }
  let newStackItem : PlayedSet := { playerId := playerId, cards := cards, timestamp := 0 }
  let updatedStack := s.tableStack ++ [newStackItem]
  let s1 := { s with
    players := updatedPlayers
    tableStack := updatedStack
    selectedCardIds := ([] : List String) }
  if newHand.length = 0 then
    handleGameEnd s1
  else
    match advanceTurn updatedPlayers updatedStack s.activePlayerIndex with
    | .next idx => { s1 with activePlayerIndex := idx }
    | .roundEnd wid => handleRoundEnd s1 wid

/-- `executePass`: flag the player as passed and advance the turn on the
updated players and the unchanged stack. -/
def executePass (s : GameState) (playerId : String) : GameState :=
  let playerIdx := s.players.findIdx (fun p => p.id == playerId)
  let player := s.players.getD playerIdx dummyPlayer
  let updatedPlayers := s.players.set playerIdx { player with passedThisRound := true }
  let s1 := { s with players := updatedPlayers }
  match advanceTurn updatedPlayers s.tableStack s.activePlayerIndex with
  | .next idx => { s1 with activePlayerIndex := idx }
  | .roundEnd wid => handleRoundEnd s1 wid

/-- The human-dealer play path of `handleHumanPlay` (and the dealer timeout):
install the requirement, enter `PLAYING`, clear the stack, then `executePlay`
against the pre-reset players snapshot (the direct `setPlayers` inside
`executePlay` overwrites the pass-flag reset, whose flags are already all
false in `DEALER_SELECTION`). -/
def dealerPlay (s : GameState) (req : RoundRequirement) (cards : List Card) : GameState :=
  executePlay
    { s with roundRequirement := some req, phase := .PLAYING, tableStack := [] }
    ((s.players.getD 0 dummyPlayer).id) cards

/-- Mash one card of the human player's hand (`handleHumanMash`): replace the
card with the given id by its mashed version. -/
def humanMash (s : GameState) (cardId : String) (rand : ℚ) : GameState :=
  let newPlayers : List Player :=
    match s.players with
    | [] => []
    | p0 :: rest =>
      { p0 with
        hand := p0.hand.map (fun c => if c.id == cardId then mashCard c rand else c) } :: rest
  { s with players := newPlayers }

/-- Placeholder for a (crashing) out-of-range TS card access; never reached
when the mashed index is in range. -/
def dummyCard : Card := { id := "", type := .SOLDIER, level := 0 }

/-- The bot-cheat mash in the AI loop: replace player `i`'s card at hand
index `j` by its mashed version. -/
def botMash (s : GameState) (i j : Nat) (rand : ℚ) : GameState :=
  let p := s.players.getD i dummyPlayer
  { s with
    players := s.players.set i
      { p with hand := p.hand.set j (mashCard (p.hand.getD j dummyCard) rand) } }

/-! ## Action-level transition system

The UI/AI effects of the component invoke the handlers above.  `Action` lists
the committed state transitions; `Enabled` gives the guards under which the
component fires each of them (taken permissively: every transition the code
can commit is an instance of an enabled action, so invariants proved over this
system hold of every run of the code). -/

/-- One committed orchestrator transition. -/
inductive Action
  /-- `handleDealerSubmit` (dealer modal, AI dealer, without an opening play). -/
  | dealerSubmit (req : RoundRequirement)
  /-- The human-dealer open (`inferRequirement` path) or the dealer timeout:
  submit a requirement and play the opening cards in one step. -/
  | dealerOpen (req : RoundRequirement) (cards : List Card)
  /-- `executePlay` of a validated human play, an AI move, or a timeout move. -/
  | play (playerId : String) (cards : List Card)
  /-- `executePass` (pass button, AI pass, timeout pass). -/
  | pass (playerId : String)
  /-- The AI stack-owner check: the active player owns the stack top and the
  round ends for them directly. -/
  | claimRound (playerId : String)
  /-- `handleHumanMash` on the card with the given id. -/
  | mashHuman (cardId : String) (rand : ℚ)
  /-- The bot-cheat mash on player `i`'s card at index `j`. -/
  | mashBot (i j : Nat) (rand : ℚ)

/-- The state transformer of each action. -/
def applyAction (s : GameState) : Action → GameState
  | .dealerSubmit req => handleDealerSubmit s req
  | .dealerOpen req cards => dealerPlay s req cards
  | .play playerId cards => executePlay s playerId cards
  | .pass playerId => executePass s playerId
  | .claimRound playerId => handleRoundEnd s playerId
  | .mashHuman cardId rand => humanMash s cardId rand
  | .mashBot i j rand => botMash s i j rand

/-- Guards under which the component commits each action. -/
def Enabled (s : GameState) : Action → Prop
  | .dealerSubmit _ => s.phase = .DEALER_SELECTION
  | .dealerOpen _ _ => s.phase = .DEALER_SELECTION
  | .play playerId _ => s.phase = .PLAYING ∧ playerId ∈ s.players.map (·.id)
  | .pass playerId =>
    (s.phase = .PLAYING ∨ s.phase = .DEALER_SELECTION) ∧ playerId ∈ s.players.map (·.id)
  | .claimRound playerId =>
    s.phase = .PLAYING ∧ playerId ∈ s.players.map (·.id) ∧
      ∃ it, s.tableStack.getLast? = some it ∧ it.playerId = playerId
  | .mashHuman _ _ => s.phase = .PLAYING ∨ s.phase = .DEALER_SELECTION
  | .mashBot _ _ _ => s.phase = .PLAYING ∨ s.phase = .DEALER_SELECTION

/-- The state produced by the `INIT` effect: `createPlayers()` yields four
players `P1 … P4` with fresh random hands, zero medals and cleared pass flags;
the initial dealer (highest hand value, first on ties) becomes dealer and
active player, and the phase moves to `DEALER_SELECTION`.  Hands are left
arbitrary here (they are random in the source). -/
def InitialState (s : GameState) : Prop :=
  s.players.map (·.id) = ["P1", "P2", "P3", "P4"] ∧
  (∀ p ∈ s.players, p.medals = 0 ∧ p.passedThisRound = false) ∧
  s.phase = .DEALER_SELECTION ∧
  s.activePlayerIndex < PLAYERS_COUNT ∧
  s.dealerIndex < PLAYERS_COUNT ∧
  s.roundRequirement = none ∧
  s.tableStack = [] ∧
  s.roundNumber = 1 ∧
  s.winner = none

instance (s : GameState) : Decidable (InitialState s) := by
  unfold InitialState
  infer_instance

/-- States reachable from the initial deal under enabled actions. -/
inductive Reachable : GameState → Prop
  | init (s : GameState) : InitialState s → Reachable s
  | step (s : GameState) (a : Action) : Reachable s → Enabled s a → Reachable (applyAction s a)

/-- Total medals currently held across all players. -/
def sumMedals (ps : List Player) : Nat :=
  (ps.map (·.medals)).sum

/-- A concrete post-`INIT` state used as a reachable-state exemplar: four
players `P1 … P4`, fresh pass flags, zero medals, round 1. -/
def initDemoState : GameState :=
  { players :=
      [⟨"P1", "玩家 1 (你)", true, [⟨"h1", .SOLDIER, 3⟩], 0, false⟩,
       ⟨"P2", "电脑 1", false, [⟨"h2", .TOWER, 4⟩], 0, false⟩,
       ⟨"P3", "电脑 2", false, [⟨"h3", .FARM, 2⟩], 0, false⟩,
       ⟨"P4", "电脑 3", false, [⟨"h4", .ORE, 5⟩], 0, false⟩]
    phase := .DEALER_SELECTION
    activePlayerIndex := 0
    dealerIndex := 0
    roundRequirement := none
    tableStack := []
    selectedCardIds := []
    roundNumber := 1
    winner := none }

/-! ## Claim-side (specification) predicates for the Move Validator -/

/-- Spec check 1: the selection size equals the required count. -/
def CountOK (sel : List Card) (req : RoundRequirement) : Prop :=
  sel.length = req.count

instance (sel : List Card) (req : RoundRequirement) : Decidable (CountOK sel req) :=
  inferInstanceAs (Decidable (sel.length = req.count))

/-- Spec check 2: for the single-type kinds, every selected card has the
required resource type. -/
def TypeOK (sel : List Card) (req : RoundRequirement) : Prop :=
  req.type = .SINGLE_FIXED ∨ req.type = .SINGLE_ASC →
    ∀ c ∈ sel, req.resourceType = some c.type

instance (sel : List Card) (req : RoundRequirement) : Decidable (TypeOK sel req) :=
  inferInstanceAs (Decidable (_ → ∀ c ∈ sel, _))

/-- Spec check 3: for the ascending kinds, the selected levels sorted
ascending are strictly increasing. -/
def AscOK (sel : List Card) (req : RoundRequirement) : Prop :=
  req.type = .SINGLE_ASC ∨ req.type = .MIXED_ASC →
    (sortLevels sel).Pairwise (· < ·)

instance (sel : List Card) (req : RoundRequirement) : Decidable (AscOK sel req) :=
  inferInstanceAs (Decidable (_ → List.Pairwise _ _))

/-- Spec check 4: if a last play exists, the selected total matches or beats
its total (equality allowed); with no last play the check is vacuous. -/
def TotalOK (sel : List Card) (last : Option PlayedSet) : Prop :=
  ∀ lp, last = some lp → calculateHandValue lp.cards ≤ calculateHandValue sel

instance (sel : List Card) (last : Option PlayedSet) : Decidable (TotalOK sel last) :=
  match last with
  | none => isTrue (by intro lp h; cases h)
  | some lp =>
    decidable_of_iff (calculateHandValue lp.cards ≤ calculateHandValue sel)
      (by constructor
          · intro h lp2 h2; cases h2; exact h
          · intro h; exact h lp rfl)

/-- The spec's rejection-reason taxonomy (§7 of the spec). -/
inductive RejectReason
  | wrongCount
  | wrongResourceType
  | notStrictlyAscending
  | belowRequiredTotal
deriving DecidableEq, Repr

/-- The earliest failing check in the spec's fixed order
(count, resource type, strict ascending, total), or `none` if all pass.
The four checks are the independent predicates above. -/
def firstFailure (sel : List Card) (last : Option PlayedSet)
    (req : RoundRequirement) : Option RejectReason :=
  if ¬ CountOK sel req then some .wrongCount
  else if ¬ TypeOK sel req then some .wrongResourceType
  else if ¬ AscOK sel req then some .notStrictlyAscending
  else if ¬ TotalOK sel last then some .belowRequiredTotal
  else none

/-- The reason string `validateMove` produces for each rejection class.
(`belowRequiredTotal` only ever arises with a last play present.) -/
def reasonText (sel : List Card) (last : Option PlayedSet)
    (req : RoundRequirement) : RejectReason → String
  | .wrongCount => "必须打出 " ++ toString req.count ++ " 张牌。"
  | .wrongResourceType => "所有牌必须是 " ++ resourceLabelOpt req.resourceType ++ "。"
  | .notStrictlyAscending => "牌点数必须严格递增 (如 1, 2, 3)。"
  | .belowRequiredTotal =>
    "总点数 (" ++ toString (calculateHandValue sel) ++ ") 必须 >= 上一家 (" ++
      (match last with
       | some lp => toString (calculateHandValue lp.cards)
       | none => "") ++ ")。"

/-! ## Claim-side definitions: turn advancement, dealer heuristic, game end -/

/-- The indices visited by the turn-advancement scan, in order: at most once
fully around the 4-player set starting after the current index. -/
def scanOrder (cur : Nat) : List Nat :=
  [(cur + 1) % PLAYERS_COUNT, (cur + 2) % PLAYERS_COUNT,
   (cur + 3) % PLAYERS_COUNT, (cur + 4) % PLAYERS_COUNT]

/-- What the claim says happens at one scanned index: the stack-top owner is
declared round winner; otherwise a player who has not passed becomes active;
otherwise the scan moves on. -/
def scanHit (ps : List Player) (lastItem : Option PlayedSet) (j : Nat) : Option TurnResult :=
  let p := ps.getD j dummyPlayer
  if lastItem.any (fun it => p.id == it.playerId) then some (.roundEnd p.id)
  else if p.passedThisRound = false then some (.next j)
  else none

/-- The indices the fuelled scan loop visits from a start index. -/
def indexChain : Nat → Nat → List Nat
  | _, 0 => []
  | n, f + 1 => n :: indexChain ((n + 1) % PLAYERS_COUNT) f

/-- `t` has the (weakly) largest count among all resource types of the hand. -/
def isMaxType (hand : List Card) (t : ResourceType) : Bool :=
  typeList.all (fun u => countType hand u ≤ countType hand t)

/-- The claim's `bestType`: the first type in the fixed enumeration order
whose count is maximal (ties broken by enumeration order). -/
def specBestType (hand : List Card) : Option ResourceType :=
  typeList.find? (isMaxType hand)

/-- The hand left after playing `cards`: the filter `executePlay` applies
(`!cardIds.includes(c.id)`). -/
def remainingHand (hand : List Card) (cards : List Card) : List Card :=
  hand.filter (fun c => !((cards.map (·.id)).contains c.id))

/-- The inductive invariant for the reachability proofs: the four player ids
are fixed, total medals lag the round counter by exactly one, and every stack
entry was played by one of the players. -/
def Inv (s : GameState) : Prop :=
  s.players.map (·.id) = ["P1", "P2", "P3", "P4"] ∧
  sumMedals s.players + 1 = s.roundNumber ∧
  ∀ it ∈ s.tableStack, it.playerId ∈ s.players.map (·.id)

/-! ## Helper lemmas: the validator -/

/-- The adjacent-pair loop accepts exactly the `<`-chains. -/
lemma strictAscCheck_eq_true_iff (l : List Int) :
    strictAscCheck l = true ↔ l.Chain' (· < ·) := by
  induction l with
  | nil => simp [strictAscCheck]
  | cons a t ih =>
    cases t with
    | nil => simp [strictAscCheck]
    | cons b t2 =>
      rw [List.chain'_cons, ← ih]
      simp only [strictAscCheck]
      split_ifs with h
      · simp; omega
      · simp; omega

/-- The adjacent-pair loop on a list accepts exactly when the list is
pairwise strictly increasing. -/
lemma strictAscCheck_eq_true_iff_pairwise (l : List Int) :
    strictAscCheck l = true ↔ l.Pairwise (· < ·) := by
  rw [strictAscCheck_eq_true_iff, List.chain'_iff_pairwise]

/-- `TypeOK` restated through the `find?` call of `validateMove`. -/
lemma typeOK_iff_not_find (sel : List Card) (req : RoundRequirement) :
    TypeOK sel req ↔
      ¬((req.type = .SINGLE_FIXED ∨ req.type = .SINGLE_ASC) ∧
        (sel.find? (fun c => req.resourceType != some c.type)).isSome) := by
  unfold TypeOK
  simp only [List.find?_isSome, bne_iff_ne, ne_eq]
  push_neg
  tauto

/-- `AscOK` restated through the ascending-check loop of `validateMove`. -/
lemma ascOK_iff_not_check (sel : List Card) (req : RoundRequirement) :
    AscOK sel req ↔
      ¬((req.type = .SINGLE_ASC ∨ req.type = .MIXED_ASC) ∧
        strictAscCheck (sortLevels sel) = false) := by
  unfold AscOK
  rw [Bool.eq_false_iff]
  rw [ne_eq, strictAscCheck_eq_true_iff_pairwise]
  tauto

/-- `validateMove` computes exactly the earliest failing spec check, with the
corresponding reason string, and accepts iff no check fails. -/
lemma validateMove_eq_firstFailure (sel : List Card) (last : Option PlayedSet)
    (req : RoundRequirement) :
    validateMove sel last (some req) =
      (match firstFailure sel last req with
       | none => ⟨true, none⟩
       | some tag => ⟨false, some (reasonText sel last req tag)⟩) := by
  simp only [validateMove, firstFailure]
  by_cases h1 : CountOK sel req
  · have hc : ¬(sel.length ≠ req.count) := by simpa [CountOK] using h1
    rw [if_neg hc]
    by_cases h2 : TypeOK sel req
    · have ht := (typeOK_iff_not_find sel req).mp h2
      rw [if_neg ht]
      by_cases h3 : AscOK sel req
      · have ha := (ascOK_iff_not_check sel req).mp h3
        rw [if_neg ha]
        by_cases h4 : TotalOK sel last
        · -- all pass
          simp only [h1, h2, h3, h4, not_true, if_false]
          cases last with
          | none => simp
          | some lp =>
            have hle : ¬(calculateHandValue sel < calculateHandValue lp.cards) := by
              have := h4 lp rfl; omega
            simp [hle]
        · -- total fails
          simp only [h1, h2, h3, h4, not_true, not_false_iff, if_true, if_false]
          cases last with
          | none => exact absurd (fun lp h => by cases h) h4
          | some lp =>
            have hlt : calculateHandValue sel < calculateHandValue lp.cards := by
              by_contra hcon
              exact h4 (fun lp2 h2 => by cases h2; omega)
            simp [hlt, reasonText]
      · -- ascending fails
        have ha : (req.type = .SINGLE_ASC ∨ req.type = .MIXED_ASC) ∧
            strictAscCheck (sortLevels sel) = false := by
          have := (ascOK_iff_not_check sel req).not.mp h3
          tauto
        rw [if_pos ha]
        simp [h1, h2, h3, reasonText]
    · -- type fails
      have ht : (req.type = .SINGLE_FIXED ∨ req.type = .SINGLE_ASC) ∧
          (sel.find? (fun c => req.resourceType != some c.type)).isSome := by
        have := (typeOK_iff_not_find sel req).not.mp h2
        tauto
      rw [if_pos ht]
      simp [h1, h2, reasonText]
  · -- count fails
    have hc : sel.length ≠ req.count := by simpa [CountOK] using h1
    rw [if_pos hc]
    simp [h1, reasonText]

/-! ## Claim theorems: the Move Validator -/

/-- C1: for every selection, last play (possibly none) and non-null
requirement, `validateMove` accepts exactly when the selection size equals
`req.count`; every card matches `req.resourceType` for the single-type kinds;
the sorted levels are strictly increasing for the ascending kinds; and the
selected total matches or beats the last play's total when one exists
(with no last play, any requirement-satisfying selection is accepted). -/
theorem validateMove_accepts_iff (sel : List Card) (last : Option PlayedSet)
    (req : RoundRequirement) :
    (validateMove sel last (some req)).valid = true ↔
      CountOK sel req ∧ TypeOK sel req ∧ AscOK sel req ∧ TotalOK sel last := by
  rw [validateMove_eq_firstFailure]
  unfold firstFailure
  split_ifs with a b c d <;> simp_all

/-- C2: `validateMove` applies its checks in the fixed order count, resource
type, strict ascending, total; it accepts iff no check fails, and otherwise
reports the reason of the earliest failing check (`firstFailure` is defined
from the four independent check predicates in that order).  The hypothesis
restricts to well-formed requirements (`resourceType` present unless
`MIXED_ASC`), the data-model invariant; for ill-formed single-type
requirements the TS code would crash on `RESOURCE_CONFIG[undefined]`. -/
theorem validateMove_first_failure_reason (sel : List Card)
    (last : Option PlayedSet) (req : RoundRequirement)
    (hwf : req.type = .MIXED_ASC ∨ (req.resourceType).isSome) :
    ((validateMove sel last (some req)).valid = true ↔
      firstFailure sel last req = none) ∧
    (∀ tag, firstFailure sel last req = some tag →
      validateMove sel last (some req) =
        ⟨false, some (reasonText sel last req tag)⟩) := by
  constructor
  · rw [validateMove_eq_firstFailure]
    cases h : firstFailure sel last req <;> simp [h]
  · intro tag htag
    rw [validateMove_eq_firstFailure, htag]

/-- Witness for C2 at a concrete input: an empty selection against a
`SINGLE_FIXED` soldier requirement of count 1. -/
theorem validateMove_first_failure_reason_witness :
    ((RoundRequirement.mk .SINGLE_FIXED (some .SOLDIER) 1 "").type = .MIXED_ASC ∨
      (RoundRequirement.mk .SINGLE_FIXED (some .SOLDIER) 1 "").resourceType.isSome) ∧
    (((validateMove [] none (some (RoundRequirement.mk .SINGLE_FIXED (some .SOLDIER) 1 ""))).valid
        = true ↔
      firstFailure [] none (RoundRequirement.mk .SINGLE_FIXED (some .SOLDIER) 1 "") = none) ∧
    (∀ tag,
      firstFailure [] none (RoundRequirement.mk .SINGLE_FIXED (some .SOLDIER) 1 "") = some tag →
      validateMove [] none (some (RoundRequirement.mk .SINGLE_FIXED (some .SOLDIER) 1 "")) =
        ⟨false, some (reasonText [] none
          (RoundRequirement.mk .SINGLE_FIXED (some .SOLDIER) 1 "") tag)⟩)) :=
  ⟨Or.inr rfl,
    validateMove_first_failure_reason [] none
      (RoundRequirement.mk .SINGLE_FIXED (some .SOLDIER) 1 "") (Or.inr rfl)⟩

/-! ## Helper lemmas: combination search -/

/-- `getCombinations` enumerates exactly the sublists of the given length. -/
lemma mem_getCombinations {α : Type} :
    ∀ (l : List α) (k : Nat) (s : List α),
      s ∈ getCombinations k l ↔ s.Sublist l ∧ s.length = k := by
  intro l
  induction l with
  | nil =>
    intro k s
    cases k with
    | zero =>
      simp only [getCombinations, List.mem_singleton]
      constructor
      · rintro rfl; exact ⟨List.Sublist.refl _, rfl⟩
      · rintro ⟨hs, hl⟩; exact List.length_eq_zero.mp hl
    | succ k =>
      simp only [getCombinations, List.not_mem_nil, false_iff, not_and]
      intro hs hl
      have := List.sublist_nil.mp hs
      subst this
      simp at hl
  | cons x xs ih =>
    intro k s
    cases k with
    | zero =>
      simp only [getCombinations, List.mem_singleton]
      constructor
      · rintro rfl; exact ⟨List.nil_sublist _, rfl⟩
      · rintro ⟨hs, hl⟩; exact List.length_eq_zero.mp hl
    | succ k =>
      simp only [getCombinations, List.mem_append, List.mem_map]
      constructor
      · rintro (⟨t, ht, rfl⟩ | hmem)
        · have := (ih k t).mp ht
          exact ⟨List.Sublist.cons₂ x this.1, by simp [this.2]⟩
        · have := (ih (k + 1) s).mp hmem
          exact ⟨List.Sublist.cons x this.1, this.2⟩
      · rintro ⟨hs, hl⟩
        rcases List.sublist_cons_iff.mp hs with h | ⟨r, rfl, hr⟩
        · exact Or.inr ((ih (k + 1) s).mpr ⟨h, hl⟩)
        · exact Or.inl ⟨r, (ih k r).mpr ⟨hr, by simpa using hl⟩, rfl⟩

/-- The head of the stable sum-sort is the first-found minimum: it belongs to
the list, its sum is minimal, and it is the first element whose sum is that
small. -/
lemma head_insertionSort_firstMin :
    ∀ (l : List (List Card)) (b : List Card),
      (List.insertionSort cheaperMove l).head? = some b →
      b ∈ l ∧ (∀ m ∈ l, calculateHandValue b ≤ calculateHandValue m) ∧
        l.find? (fun m => calculateHandValue m ≤ calculateHandValue b) = some b := by
  intro l
  induction l with
  | nil => intro b h; simp [List.insertionSort] at h
  | cons a t ih =>
    intro b h
    rw [show List.insertionSort cheaperMove (a :: t) =
        List.orderedInsert cheaperMove a (List.insertionSort cheaperMove t) from rfl] at h
    cases hsort : List.insertionSort cheaperMove t with
    | nil =>
      rw [hsort] at h
      simp only [List.orderedInsert, List.head?] at h
      have hb : b = a := by simpa using h.symm
      have ht : t = [] := by
        have hperm := List.perm_insertionSort cheaperMove t
        rw [hsort] at hperm
        exact (List.Perm.nil_eq hperm).symm
      rw [hb, ht]
      refine ⟨List.mem_singleton_self a, ?_, ?_⟩
      · intro m hm; rw [List.mem_singleton.mp hm]
      · simp
    | cons c s =>
      rw [hsort] at h
      have hc := ih c (by rw [hsort]; rfl)
      simp only [List.orderedInsert] at h
      by_cases hr : cheaperMove a c
      · rw [if_pos hr] at h
        have hb : b = a := by simpa using h.symm
        rw [hb]
        have hmin : ∀ m ∈ t, calculateHandValue a ≤ calculateHandValue m := by
          intro m hm
          exact le_trans hr (hc.2.1 m hm)
        refine ⟨List.mem_cons_self a t, ?_, ?_⟩
        · intro m hm
          rcases List.mem_cons.mp hm with rfl | hm
          · exact le_refl _
          · exact hmin m hm
        · rw [List.find?_cons_of_pos _ (by simp)]
      · rw [if_neg hr] at h
        have hb : b = c := by simpa using h.symm
        rw [hb]
        have hac : calculateHandValue c < calculateHandValue a := by
          simp only [cheaperMove, not_le] at hr
          exact hr
        refine ⟨List.mem_cons_of_mem a hc.1, ?_, ?_⟩
        · intro m hm
          rcases List.mem_cons.mp hm with rfl | hm
          · exact le_of_lt hac
          · exact hc.2.1 m hm
        · have hpa : ¬(calculateHandValue a ≤ calculateHandValue c) := not_le.mpr hac
          rw [List.find?_cons_of_neg _ (by simpa using hpa)]
          exact hc.2.2

/-- `getAIMove` returns the head of the stable sum-sort of the valid moves. -/
lemma getAIMove_eq_head (player : Player) (last : Option PlayedSet)
    (req : RoundRequirement) :
    getAIMove player last req =
      (List.insertionSort cheaperMove (aiValidMoves player last req)).head? := by
  unfold getAIMove
  cases List.insertionSort cheaperMove (aiValidMoves player last req) <;> rfl

/-- A stable sort is empty iff its input is. -/
lemma insertionSort_eq_nil_iff (l : List (List Card)) :
    List.insertionSort cheaperMove l = [] ↔ l = [] := by
  constructor
  · intro h
    have hperm := List.perm_insertionSort cheaperMove l
    rw [h] at hperm
    exact (List.Perm.nil_eq hperm).symm
  · intro h; rw [h]; rfl

/-! ## Claim theorem: the Combination Search -/

/-- C3: `getAIMove` passes (returns `none`) exactly when no size-`count`
subset of the type-filtered hand is accepted by `validateMove`; otherwise it
returns an accepted subset of minimal level sum, the first such subset in
combination-enumeration order.  The final conjunct is the spec's concrete
scenario: `{SINGLE_FIXED, SOLDIER, count=1}`, no last play, hand
`{SOLDIER:3, TOWER:5}` yields the single level-3 soldier. -/
theorem getAIMove_cheapest :
    (∀ (player : Player) (last : Option PlayedSet) (req : RoundRequirement),
      (getAIMove player last req = none ↔
        ∀ sub : List Card, sub.Sublist (aiCandidates player req) →
          sub.length = req.count →
          (validateMove sub last (some req)).valid = false)
      ∧ (∀ r, getAIMove player last req = some r →
          (validateMove r last (some req)).valid = true ∧
          r.Sublist (aiCandidates player req) ∧ r.length = req.count ∧
          (∀ m ∈ aiValidMoves player last req,
            calculateHandValue r ≤ calculateHandValue m) ∧
          (aiValidMoves player last req).find?
            (fun m => calculateHandValue m ≤ calculateHandValue r) = some r))
    ∧ getAIMove
        ⟨"P2", "电脑 1", false, [⟨"s1", .SOLDIER, 3⟩, ⟨"t1", .TOWER, 5⟩], 0, false⟩
        none ⟨.SINGLE_FIXED, some .SOLDIER, 1, ""⟩ = some [⟨"s1", .SOLDIER, 3⟩] := by
  constructor
  · intro player last req
    constructor
    · rw [getAIMove_eq_head, List.head?_eq_none_iff, insertionSort_eq_nil_iff,
        aiValidMoves, List.filter_eq_nil_iff]
      constructor
      · intro h sub hsub hlen
        have hmem := (mem_getCombinations _ _ sub).mpr ⟨hsub, hlen⟩
        simpa using h sub hmem
      · intro h combo hcombo
        have hsub := (mem_getCombinations _ _ combo).mp hcombo
        simp [h combo hsub.1 hsub.2]
    · intro r hr
      rw [getAIMove_eq_head] at hr
      obtain ⟨hmem, hmin, hfind⟩ := head_insertionSort_firstMin _ r hr
      rw [aiValidMoves, List.mem_filter] at hmem
      have hsub := (mem_getCombinations _ _ r).mp hmem.1
      exact ⟨by simpa using hmem.2, hsub.1, hsub.2, hmin, hfind⟩
  · rfl

/-! ## Claim theorem: the Mash Mutator -/

/-- C7: for a card with level in `[1,7]` and a draw `r ∈ [0,1)`, `mashCard`
preserves `id` and `resourceType`; on the better band `[0, 0.15)` the level
becomes `level+1` clamped to 7; on the worse band `[0.15, 0.20)` it becomes
`level-1` clamped to 1; otherwise (measure `0.80`) it is unchanged; the result
stays in `[1,7]`; and mashing a level-7 card on a better draw leaves it at 7.
The bands tie back to `MASH_PROBABILITIES` in the final conjuncts.
Determinism given `r` is immediate: `mashCard` is a function of `card, r`. -/
theorem mashCard_spec (card : Card) (r : ℚ)
    (hlvl1 : 1 ≤ card.level) (hlvl7 : card.level ≤ 7)
    (hr0 : 0 ≤ r) (hr1 : r < 1) :
    (mashCard card r).id = card.id ∧
    (mashCard card r).type = card.type ∧
    (r < MASH_BETTER → (mashCard card r).level = min 7 (card.level + 1)) ∧
    (MASH_BETTER ≤ r → r < MASH_BETTER + MASH_WORSE →
      (mashCard card r).level = max 1 (card.level - 1)) ∧
    (MASH_BETTER + MASH_WORSE ≤ r → (mashCard card r).level = card.level) ∧
    1 ≤ (mashCard card r).level ∧ (mashCard card r).level ≤ 7 ∧
    (card.level = 7 → r < MASH_BETTER → (mashCard card r).level = 7) ∧
    MASH_BETTER = 15 / 100 ∧ MASH_WORSE = 5 / 100 ∧ MASH_SAME = 80 / 100 ∧
    MASH_BETTER + MASH_WORSE + MASH_SAME = 1 := by
  have hlevel : (mashCard card r).level =
      (if r < MASH_BETTER then min 7 (card.level + 1)
       else if r < MASH_BETTER + MASH_WORSE then max 1 (card.level - 1)
       else card.level) := rfl
  refine ⟨rfl, rfl, ?_, ?_, ?_, ?_, ?_, ?_, rfl, rfl, rfl, by norm_num [MASH_BETTER, MASH_WORSE, MASH_SAME]⟩
  · intro h; rw [hlevel, if_pos h]
  · intro h1 h2; rw [hlevel, if_neg (not_lt.mpr h1), if_pos h2]
  · intro h; rw [hlevel, if_neg (not_lt.mpr (le_trans ?_ h)), if_neg (not_lt.mpr h)]
    have : (0 : ℚ) < MASH_WORSE := by norm_num [MASH_WORSE]
    linarith
  · rw [hlevel]; split_ifs <;> omega
  · rw [hlevel]; split_ifs <;> omega
  · intro h7 hb; rw [hlevel, if_pos hb, h7]; decide

/-- Witness for C7: mashing a level-7 ore card with the better draw
`r = 1/10` keeps it at level 7. -/
theorem mashCard_spec_witness :
    (1 ≤ (Card.mk "x" .ORE 7).level ∧ (Card.mk "x" .ORE 7).level ≤ 7 ∧
      (0 : ℚ) ≤ 1 / 10 ∧ (1 / 10 : ℚ) < 1) ∧
    (mashCard (Card.mk "x" .ORE 7) (1 / 10)).id = (Card.mk "x" .ORE 7).id ∧
    (mashCard (Card.mk "x" .ORE 7) (1 / 10)).type = (Card.mk "x" .ORE 7).type ∧
    ((1 / 10 : ℚ) < MASH_BETTER →
      (mashCard (Card.mk "x" .ORE 7) (1 / 10)).level = min 7 ((Card.mk "x" .ORE 7).level + 1)) ∧
    (MASH_BETTER ≤ 1 / 10 → (1 / 10 : ℚ) < MASH_BETTER + MASH_WORSE →
      (mashCard (Card.mk "x" .ORE 7) (1 / 10)).level = max 1 ((Card.mk "x" .ORE 7).level - 1)) ∧
    (MASH_BETTER + MASH_WORSE ≤ 1 / 10 →
      (mashCard (Card.mk "x" .ORE 7) (1 / 10)).level = (Card.mk "x" .ORE 7).level) ∧
    1 ≤ (mashCard (Card.mk "x" .ORE 7) (1 / 10)).level ∧
    (mashCard (Card.mk "x" .ORE 7) (1 / 10)).level ≤ 7 ∧
    ((Card.mk "x" .ORE 7).level = 7 → (1 / 10 : ℚ) < MASH_BETTER →
      (mashCard (Card.mk "x" .ORE 7) (1 / 10)).level = 7) ∧
    MASH_BETTER = 15 / 100 ∧ MASH_WORSE = 5 / 100 ∧ MASH_SAME = 80 / 100 ∧
    MASH_BETTER + MASH_WORSE + MASH_SAME = 1 :=
  ⟨⟨by norm_num, by norm_num, by norm_num, by norm_num⟩,
    mashCard_spec (Card.mk "x" .ORE 7) (1 / 10)
      (by norm_num) (by norm_num) (by norm_num) (by norm_num)⟩

/-! ## Helper lemmas: the AI dealer heuristic -/

/-- A card's own type is counted at least once in its hand. -/
lemma countType_cons_self_pos (c : Card) (rest : List Card) :
    1 ≤ countType (c :: rest) c.type := by
  simp [countType, List.filter_cons]

/-- The `-1`-initialised strict-`>` fold of `getAIDealerRequirement` computes
the first type (in enumeration order) with the maximal count, together with
that count. -/
lemma bestTypeAndCount_spec (hand : List Card) :
    (bestTypeAndCount hand).2 = (countType hand (bestTypeAndCount hand).1 : Int) ∧
    (∀ t : ResourceType, (countType hand t : Int) ≤ (bestTypeAndCount hand).2) ∧
    specBestType hand = some (bestTypeAndCount hand).1 := by
  have h0 : ((countType hand .SOLDIER : Int) > -1) := by omega
  simp only [bestTypeAndCount, typeList, List.foldl_cons, List.foldl_nil, if_pos h0]
  by_cases hb : (countType hand .TOWER : Int) > (countType hand .SOLDIER : Int)
  · rw [if_pos hb]
    by_cases hc : (countType hand .FARM : Int) > (countType hand .TOWER : Int)
    · rw [if_pos hc]
      by_cases hd : (countType hand .ORE : Int) > (countType hand .FARM : Int)
      · rw [if_pos hd]
        refine ⟨rfl, ?_, ?_⟩
        · intro t; cases t <;> simp <;> omega
        · unfold specBestType typeList
          rw [List.find?_cons_of_neg _ (by simp [isMaxType, typeList]; omega)]
          rw [List.find?_cons_of_neg _ (by simp [isMaxType, typeList]; omega)]
          rw [List.find?_cons_of_neg _ (by simp [isMaxType, typeList]; omega)]
          rw [List.find?_cons_of_pos _ (by simp [isMaxType, typeList]; omega)]
      · rw [if_neg hd]
        refine ⟨rfl, ?_, ?_⟩
        · intro t; cases t <;> simp <;> omega
        · unfold specBestType typeList
          rw [List.find?_cons_of_neg _ (by simp [isMaxType, typeList]; omega)]
          rw [List.find?_cons_of_neg _ (by simp [isMaxType, typeList]; omega)]
          rw [List.find?_cons_of_pos _ (by simp [isMaxType, typeList]; omega)]
    · rw [if_neg hc]
      by_cases hd : (countType hand .ORE : Int) > (countType hand .TOWER : Int)
      · rw [if_pos hd]
        refine ⟨rfl, ?_, ?_⟩
        · intro t; cases t <;> simp <;> omega
        · unfold specBestType typeList
          rw [List.find?_cons_of_neg _ (by simp [isMaxType, typeList]; omega)]
          rw [List.find?_cons_of_neg _ (by simp [isMaxType, typeList]; omega)]
          rw [List.find?_cons_of_neg _ (by simp [isMaxType, typeList]; omega)]
          rw [List.find?_cons_of_pos _ (by simp [isMaxType, typeList]; omega)]
      · rw [if_neg hd]
        refine ⟨rfl, ?_, ?_⟩
        · intro t; cases t <;> simp <;> omega
        · unfold specBestType typeList
          rw [List.find?_cons_of_neg _ (by simp [isMaxType, typeList]; omega)]
          rw [List.find?_cons_of_pos _ (by simp [isMaxType, typeList]; omega)]
  · rw [if_neg hb]
    by_cases hc : (countType hand .FARM : Int) > (countType hand .SOLDIER : Int)
    · rw [if_pos hc]
      by_cases hd : (countType hand .ORE : Int) > (countType hand .FARM : Int)
      · rw [if_pos hd]
        refine ⟨rfl, ?_, ?_⟩
        · intro t; cases t <;> simp <;> omega
        · unfold specBestType typeList
          rw [List.find?_cons_of_neg _ (by simp [isMaxType, typeList]; omega)]
          rw [List.find?_cons_of_neg _ (by simp [isMaxType, typeList]; omega)]
          rw [List.find?_cons_of_neg _ (by simp [isMaxType, typeList]; omega)]
          rw [List.find?_cons_of_pos _ (by simp [isMaxType, typeList]; omega)]
      · rw [if_neg hd]
        refine ⟨rfl, ?_, ?_⟩
        · intro t; cases t <;> simp <;> omega
        · unfold specBestType typeList
          rw [List.find?_cons_of_neg _ (by simp [isMaxType, typeList]; omega)]
          rw [List.find?_cons_of_neg _ (by simp [isMaxType, typeList]; omega)]
          rw [List.find?_cons_of_pos _ (by simp [isMaxType, typeList]; omega)]
    · rw [if_neg hc]
      by_cases hd : (countType hand .ORE : Int) > (countType hand .SOLDIER : Int)
      · rw [if_pos hd]
        refine ⟨rfl, ?_, ?_⟩
        · intro t; cases t <;> simp <;> omega
        · unfold specBestType typeList
          rw [List.find?_cons_of_neg _ (by simp [isMaxType, typeList]; omega)]
          rw [List.find?_cons_of_neg _ (by simp [isMaxType, typeList]; omega)]
          rw [List.find?_cons_of_neg _ (by simp [isMaxType, typeList]; omega)]
          rw [List.find?_cons_of_pos _ (by simp [isMaxType, typeList]; omega)]
      · rw [if_neg hd]
        refine ⟨rfl, ?_, ?_⟩
        · intro t; cases t <;> simp <;> omega
        · unfold specBestType typeList
          rw [List.find?_cons_of_pos _ (by simp [isMaxType, typeList]; omega)]

/-- A selection passing all four independent checks is accepted. -/
lemma validateMove_valid_of_checks (sel : List Card) (last : Option PlayedSet)
    (req : RoundRequirement) (h1 : CountOK sel req) (h2 : TypeOK sel req)
    (h3 : AscOK sel req) (h4 : TotalOK sel last) :
    (validateMove sel last (some req)).valid = true := by
  rw [validateMove_eq_firstFailure]
  unfold firstFailure
  simp [h1, h2, h3, h4]

/-- A single valid move suffices for the AI not to pass. -/
lemma getAIMove_ne_none_of_mem (player : Player) (last : Option PlayedSet)
    (req : RoundRequirement) (m : List Card)
    (hm : m ∈ aiValidMoves player last req) :
    getAIMove player last req ≠ none := by
  rw [getAIMove_eq_head, Ne, List.head?_eq_none_iff, insertionSort_eq_nil_iff]
  intro hnil
  rw [hnil] at hm
  cases hm

/-- The filter predicate of `getAIMove` (`c.type === req.resourceType`) agrees
with the counting predicate (`c.type == t`) once the requirement's type is
known. -/
lemma beq_some_comm (bt t : ResourceType) :
    ((some bt == some t) : Bool) = (t == bt) := by
  cases hb : (t == bt) with
  | true =>
    have heq := eq_of_beq hb
    subst heq
    simp
  | false =>
    have hne : t ≠ bt := by
      intro heq; subst heq; simp at hb
    have : some bt ≠ some t := by
      intro hc; cases hc; exact hne rfl
    simpa using this

/-- For single-type requirements the AI candidate filter is the hand filtered
to the required type. -/
lemma aiCandidates_single (player : Player) (req : RoundRequirement)
    (bt : ResourceType)
    (htype : req.type = .SINGLE_FIXED ∨ req.type = .SINGLE_ASC)
    (hrt : req.resourceType = some bt) :
    aiCandidates player req = player.hand.filter (fun c => c.type == bt) := by
  unfold aiCandidates
  rw [if_pos htype]
  refine List.filter_congr ?_
  intro c _
  rw [hrt]
  exact beq_some_comm bt c.type

/-- A non-empty hand contains at least one card of the fold's best type. -/
lemma bestTypeCount_pos (player : Player) (hne : player.hand ≠ []) :
    1 ≤ countType player.hand (bestTypeAndCount player.hand).1 := by
  obtain ⟨h1, h2, _⟩ := bestTypeAndCount_spec player.hand
  obtain ⟨c, rest, hhand⟩ := List.exists_cons_of_ne_nil hne
  have hhead : 1 ≤ countType player.hand c.type := by
    rw [hhand]; exact countType_cons_self_pos c rest
  have hle := h2 c.type
  rw [h1] at hle
  omega

/-- Shape facts about the dealer requirement used across proofs: its
`resourceType` is always the fold's best type, and outside the mixed branch
its count is `max 1 (min bestCount 2)`, with the ascending branch implying
`bestCount ≥ 2`. -/
lemma getAIDealerRequirement_shape (player : Player) (r : ℚ) :
    (getAIDealerRequirement player r).resourceType =
      some (bestTypeAndCount player.hand).1 ∧
    ((getAIDealerRequirement player r).type = .MIXED_ASC ∨
      ((getAIDealerRequirement player r).count =
        (max 1 (min (bestTypeAndCount player.hand).2 2)).toNat ∧
       ((getAIDealerRequirement player r).type = .SINGLE_ASC →
         (bestTypeAndCount player.hand).2 ≥ 2))) := by
  by_cases hA : r > 8 / 10 ∧ player.hand.length ≥ 3
  · constructor
    · simp only [getAIDealerRequirement]
    · left; simp only [getAIDealerRequirement]; rw [if_pos hA]
  · by_cases hB : r > 6 / 10 ∧ (bestTypeAndCount player.hand).2 ≥ 2
    · constructor
      · simp only [getAIDealerRequirement]
      · right
        constructor
        · simp only [getAIDealerRequirement]; rw [if_neg hA, if_pos hB]
        · intro _; exact hB.2
    · constructor
      · simp only [getAIDealerRequirement]
      · right
        constructor
        · simp only [getAIDealerRequirement]; rw [if_neg hA, if_neg hB]
        · intro habs
          have : (getAIDealerRequirement player r).type = .SINGLE_FIXED := by
            simp only [getAIDealerRequirement]; rw [if_neg hA, if_neg hB]
          rw [habs] at this
          cases this

/-- Two cards of distinct levels sort into a strictly increasing pair. -/
lemma pairwise_lt_sortLevels_pair (c1 c2 : Card) (h : c1.level ≠ c2.level) :
    (sortLevels [c1, c2]).Pairwise (· < ·) := by
  show (List.orderedInsert (· ≤ ·) c1.level [c2.level]).Pairwise (· < ·)
  unfold List.orderedInsert
  split_ifs with hle <;> simp <;> omega

/-! ## Claim theorem: the AI Dealer Strategy -/

/-- C8: `getAIDealerRequirement` picks `bestType` as the first type (in the
fixed enumeration order) with the highest hand count, and returns
`MIXED_ASCENDING, count 3` when `r > 0.8` and the hand has at least 3 cards;
else `SINGLE_ASCENDING` with `count = min(bestTypeCount, 2)` when `r > 0.6`
and the best count is at least 2; else `SINGLE_FIXED` with
`count = min(bestTypeCount, 2)` floored at 1 (the floor only matters for an
empty hand, where `min` would be 0); in every branch the returned count is at
least 1. -/
theorem getAIDealerRequirement_branches (player : Player) (r : ℚ) :
    ∃ bt : ResourceType, specBestType player.hand = some bt ∧
      (getAIDealerRequirement player r).resourceType = some bt ∧
      ((r > 8 / 10 ∧ player.hand.length ≥ 3) →
        (getAIDealerRequirement player r).type = .MIXED_ASC ∧
        (getAIDealerRequirement player r).count = 3) ∧
      (¬(r > 8 / 10 ∧ player.hand.length ≥ 3) →
        (r > 6 / 10 ∧ 2 ≤ countType player.hand bt) →
        (getAIDealerRequirement player r).type = .SINGLE_ASC ∧
        (getAIDealerRequirement player r).count = min (countType player.hand bt) 2) ∧
      (¬(r > 8 / 10 ∧ player.hand.length ≥ 3) →
        ¬(r > 6 / 10 ∧ 2 ≤ countType player.hand bt) →
        (getAIDealerRequirement player r).type = .SINGLE_FIXED ∧
        (getAIDealerRequirement player r).count = max 1 (min (countType player.hand bt) 2) ∧
        (player.hand ≠ [] →
          (getAIDealerRequirement player r).count = min (countType player.hand bt) 2)) ∧
      1 ≤ (getAIDealerRequirement player r).count := by
  obtain ⟨h1, h2, h3⟩ := bestTypeAndCount_spec player.hand
  refine ⟨(bestTypeAndCount player.hand).1, h3, ?_⟩
  have hpos : player.hand ≠ [] →
      1 ≤ countType player.hand (bestTypeAndCount player.hand).1 := by
    intro hne
    obtain ⟨c, rest, hhand⟩ := List.exists_cons_of_ne_nil hne
    have hhead : 1 ≤ countType player.hand c.type := by
      rw [hhand]; exact countType_cons_self_pos c rest
    have hle := h2 c.type
    rw [h1] at hle
    omega
  by_cases hA : r > 8 / 10 ∧ player.hand.length ≥ 3
  · have hreq : getAIDealerRequirement player r =
        { type := .MIXED_ASC
          resourceType := some (bestTypeAndCount player.hand).1
          count := (max 1 (3 : Int)).toNat
          description := "电脑选择: " ++ requirementTypeText .MIXED_ASC ++
            " (" ++ toString (3 : Int) ++ " 张)" } := by
      simp only [getAIDealerRequirement]
      rw [if_pos hA]
    rw [hreq]
    refine ⟨rfl, fun _ => ⟨rfl, rfl⟩, fun h _ => absurd hA h, fun h _ => absurd hA h, ?_⟩
    show (1 : Nat) ≤ (max 1 (3 : Int)).toNat
    decide
  · by_cases hB : r > 6 / 10 ∧ (bestTypeAndCount player.hand).2 ≥ 2
    · have hreq : getAIDealerRequirement player r =
          { type := .SINGLE_ASC
            resourceType := some (bestTypeAndCount player.hand).1
            count := (max 1 (min (bestTypeAndCount player.hand).2 2)).toNat
            description := "电脑选择: " ++ requirementTypeText .SINGLE_ASC ++
              " (" ++ toString (min (bestTypeAndCount player.hand).2 2) ++ " 张)" } := by
        simp only [getAIDealerRequirement]
        rw [if_neg hA, if_pos hB]
      have hcnt : 2 ≤ countType player.hand (bestTypeAndCount player.hand).1 := by
        have hb2 := hB.2; rw [h1] at hb2; omega
      rw [hreq]
      refine ⟨rfl, fun h => absurd h hA, fun _ _ => ⟨rfl, ?_⟩,
        fun _ h => absurd ⟨hB.1, hcnt⟩ h, ?_⟩
      · show (max 1 (min (bestTypeAndCount player.hand).2 2)).toNat =
          min (countType player.hand (bestTypeAndCount player.hand).1) 2
        rw [h1]; omega
      · show (1 : Nat) ≤ (max 1 (min (bestTypeAndCount player.hand).2 2)).toNat
        omega
    · have hreq : getAIDealerRequirement player r =
          { type := .SINGLE_FIXED
            resourceType := some (bestTypeAndCount player.hand).1
            count := (max 1 (min (bestTypeAndCount player.hand).2 2)).toNat
            description := "电脑选择: " ++ requirementTypeText .SINGLE_FIXED ++
              " (" ++ toString (min (bestTypeAndCount player.hand).2 2) ++ " 张)" } := by
        simp only [getAIDealerRequirement]
        rw [if_neg hA, if_neg hB]
      rw [hreq]
      refine ⟨rfl, fun h => absurd h hA, fun _ hb => ?_, fun _ _ => ⟨rfl, ?_, fun hne => ?_⟩, ?_⟩
      · exact absurd ⟨hb.1, by rw [h1]; omega⟩ hB
      · show (max 1 (min (bestTypeAndCount player.hand).2 2)).toNat =
          max 1 (min (countType player.hand (bestTypeAndCount player.hand).1) 2)
        rw [h1]; omega
      · show (max 1 (min (bestTypeAndCount player.hand).2 2)).toNat =
          min (countType player.hand (bestTypeAndCount player.hand).1) 2
        have hp := hpos hne; rw [h1]; omega
      · show (1 : Nat) ≤ (max 1 (min (bestTypeAndCount player.hand).2 2)).toNat
        omega

/-! ## Claim theorems: satisfiability of the dealer's own requirement (C9) -/

/-- Counterexample to C9: a hand of two level-3 soldiers with draw `r = 0.7`
makes the AI dealer emit `SINGLE_ASCENDING, count 2`, but its own hand has no
two soldiers of distinct levels, so `getAIMove` passes. -/
theorem dealer_requirement_unsatisfiable_example :
    (getAIDealerRequirement
        ⟨"P2", "bot", false, [⟨"a", .SOLDIER, 3⟩, ⟨"b", .SOLDIER, 3⟩], 0, false⟩
        (7 / 10)).type = .SINGLE_ASC ∧
    getAIMove
        ⟨"P2", "bot", false, [⟨"a", .SOLDIER, 3⟩, ⟨"b", .SOLDIER, 3⟩], 0, false⟩
        none
        (getAIDealerRequirement
          ⟨"P2", "bot", false, [⟨"a", .SOLDIER, 3⟩, ⟨"b", .SOLDIER, 3⟩], 0, false⟩
          (7 / 10)) = none := by
  have hA : ¬((7 / 10 : ℚ) > 8 / 10 ∧
      (Player.mk "P2" "bot" false
        [⟨"a", .SOLDIER, 3⟩, ⟨"b", .SOLDIER, 3⟩] 0 false).hand.length ≥ 3) := by
    norm_num
  have hB : ((7 / 10 : ℚ) > 6 / 10 ∧
      (bestTypeAndCount (Player.mk "P2" "bot" false
        [⟨"a", .SOLDIER, 3⟩, ⟨"b", .SOLDIER, 3⟩] 0 false).hand).2 ≥ 2) := by
    constructor
    · norm_num
    · decide
  have hreq : getAIDealerRequirement
      ⟨"P2", "bot", false, [⟨"a", .SOLDIER, 3⟩, ⟨"b", .SOLDIER, 3⟩], 0, false⟩
      (7 / 10) =
      { type := .SINGLE_ASC, resourceType := some .SOLDIER, count := 2,
        description := "电脑选择: " ++ requirementTypeText .SINGLE_ASC ++
          " (" ++ toString (2 : Int) ++ " 张)" } := by
    simp only [getAIDealerRequirement]
    rw [if_neg hA, if_pos hB]
    decide
  rw [hreq]
  exact ⟨rfl, by decide⟩

/-- C9 as amended: for a non-empty hand, a `SINGLE_FIXED` requirement emitted
by the dealer heuristic is always satisfiable from the dealer's own hand; a
`SINGLE_ASCENDING` one is satisfiable provided the hand holds two best-type
cards of distinct levels (the counterexample shows this proviso is needed). -/
theorem dealer_requirement_satisfiable (player : Player) (r : ℚ)
    (hne : player.hand ≠ []) :
    ((getAIDealerRequirement player r).type = .SINGLE_FIXED →
      getAIMove player none (getAIDealerRequirement player r) ≠ none) ∧
    ((getAIDealerRequirement player r).type = .SINGLE_ASC →
      (∃ c1 c2 : Card, [c1, c2].Sublist player.hand ∧
        c1.type = (bestTypeAndCount player.hand).1 ∧
        c2.type = (bestTypeAndCount player.hand).1 ∧
        c1.level ≠ c2.level) →
      getAIMove player none (getAIDealerRequirement player r) ≠ none) := by
  obtain ⟨hrt, hshape⟩ := getAIDealerRequirement_shape player r
  obtain ⟨h1, h2, h3⟩ := bestTypeAndCount_spec player.hand
  have hbcpos := bestTypeCount_pos player hne
  constructor
  · intro htype
    rcases hshape with hmix | ⟨hcount, _⟩
    · rw [htype] at hmix; cases hmix
    · -- candidates are the best-type cards; take `count` of them
      have hcand := aiCandidates_single player (getAIDealerRequirement player r)
        (bestTypeAndCount player.hand).1 (Or.inl htype) hrt
      have hlencand : (aiCandidates player (getAIDealerRequirement player r)).length =
          countType player.hand (bestTypeAndCount player.hand).1 := by
        rw [hcand]; rfl
      have hkle : (getAIDealerRequirement player r).count ≤
          countType player.hand (bestTypeAndCount player.hand).1 := by
        rw [hcount, h1]; omega
      set sub := (aiCandidates player (getAIDealerRequirement player r)).take
        (getAIDealerRequirement player r).count with hsub
      have hsublen : sub.length = (getAIDealerRequirement player r).count := by
        rw [hsub, List.length_take, hlencand]
        omega
      have hsubsub : sub.Sublist (aiCandidates player (getAIDealerRequirement player r)) :=
        List.take_sublist _ _
      have hmem : sub ∈ getCombinations (getAIDealerRequirement player r).count
          (aiCandidates player (getAIDealerRequirement player r)) :=
        (mem_getCombinations _ _ sub).mpr ⟨hsubsub, hsublen⟩
      have hvalid : (validateMove sub none (some (getAIDealerRequirement player r))).valid
          = true := by
        refine validateMove_valid_of_checks _ _ _ hsublen ?_ ?_ ?_
        · intro _ c hc
          have hcmem : c ∈ aiCandidates player (getAIDealerRequirement player r) :=
            hsubsub.subset hc
          rw [hcand] at hcmem
          have := List.of_mem_filter hcmem
          rw [hrt]
          have hct := eq_of_beq this
          rw [hct]
        · intro hdisj
          rcases hdisj with hd | hd <;> rw [htype] at hd <;> cases hd
        · intro lp hlp; cases hlp
      exact getAIMove_ne_none_of_mem _ _ _ sub
        (List.mem_filter.mpr ⟨hmem, by simpa using hvalid⟩)
  · intro htype hpair
    obtain ⟨c1, c2, hsub12, ht1, ht2, hlvl⟩ := hpair
    rcases hshape with hmix | ⟨hcount, hasc2⟩
    · rw [htype] at hmix; cases hmix
    · have hbc2 : 2 ≤ countType player.hand (bestTypeAndCount player.hand).1 := by
        have := hasc2 htype; rw [h1] at this; omega
      have hk2 : (getAIDealerRequirement player r).count = 2 := by
        rw [hcount, h1]; omega
      have hcand := aiCandidates_single player (getAIDealerRequirement player r)
        (bestTypeAndCount player.hand).1 (Or.inr htype) hrt
      have hpairsub : ([c1, c2]).Sublist
          (aiCandidates player (getAIDealerRequirement player r)) := by
        rw [hcand]
        have hfsub := hsub12.filter (fun c => c.type == (bestTypeAndCount player.hand).1)
        have hfeq : ([c1, c2]).filter
            (fun c => c.type == (bestTypeAndCount player.hand).1) = [c1, c2] := by
          have hb1 : (c1.type == (bestTypeAndCount player.hand).1) = true := by
            rw [ht1]; simp
          have hb2 : (c2.type == (bestTypeAndCount player.hand).1) = true := by
            rw [ht2]; simp
          simp [List.filter, hb1, hb2]
        rw [hfeq] at hfsub
        exact hfsub
      have hmem : [c1, c2] ∈ getCombinations (getAIDealerRequirement player r).count
          (aiCandidates player (getAIDealerRequirement player r)) :=
        (mem_getCombinations _ _ [c1, c2]).mpr ⟨hpairsub, by simp [hk2]⟩
      have hvalid : (validateMove [c1, c2] none
          (some (getAIDealerRequirement player r))).valid = true := by
        refine validateMove_valid_of_checks _ _ _ (by simp [CountOK, hk2]) ?_ ?_ ?_
        · intro _ c hc
          rw [hrt]
          rcases List.mem_cons.mp hc with rfl | hc2
          · rw [ht1]
          · rcases List.mem_cons.mp hc2 with rfl | hc3
            · rw [ht2]
            · cases hc3
        · intro _
          exact pairwise_lt_sortLevels_pair c1 c2 hlvl
        · intro lp hlp; cases hlp
      exact getAIMove_ne_none_of_mem _ _ _ [c1, c2]
        (List.mem_filter.mpr ⟨hmem, by simpa using hvalid⟩)

/-- Witness for C9 (amended): a one-soldier hand with draw `r = 0` falls into
the `SINGLE_FIXED` branch and the dealer can play it. -/
theorem dealer_requirement_satisfiable_witness :
    ((Player.mk "P1" "p" true [⟨"a", .SOLDIER, 1⟩] 0 false).hand ≠ []) ∧
    (((getAIDealerRequirement (Player.mk "P1" "p" true [⟨"a", .SOLDIER, 1⟩] 0 false) 0).type
        = .SINGLE_FIXED →
      getAIMove (Player.mk "P1" "p" true [⟨"a", .SOLDIER, 1⟩] 0 false) none
        (getAIDealerRequirement (Player.mk "P1" "p" true [⟨"a", .SOLDIER, 1⟩] 0 false) 0)
        ≠ none) ∧
    ((getAIDealerRequirement (Player.mk "P1" "p" true [⟨"a", .SOLDIER, 1⟩] 0 false) 0).type
        = .SINGLE_ASC →
      (∃ c1 c2 : Card,
        [c1, c2].Sublist (Player.mk "P1" "p" true [⟨"a", .SOLDIER, 1⟩] 0 false).hand ∧
        c1.type = (bestTypeAndCount
          (Player.mk "P1" "p" true [⟨"a", .SOLDIER, 1⟩] 0 false).hand).1 ∧
        c2.type = (bestTypeAndCount
          (Player.mk "P1" "p" true [⟨"a", .SOLDIER, 1⟩] 0 false).hand).1 ∧
        c1.level ≠ c2.level) →
      getAIMove (Player.mk "P1" "p" true [⟨"a", .SOLDIER, 1⟩] 0 false) none
        (getAIDealerRequirement (Player.mk "P1" "p" true [⟨"a", .SOLDIER, 1⟩] 0 false) 0)
        ≠ none)) :=
  ⟨by decide, dealer_requirement_satisfiable
    (Player.mk "P1" "p" true [⟨"a", .SOLDIER, 1⟩] 0 false) 0 (by decide)⟩

/-! ## Helper lemmas: requirement inference -/

/-- The `Set` size (`dedup` length) of the card types is 1 exactly when every
card shares the first card's type. -/
lemma dedup_types_len_one_iff (c : Card) (rest : List Card) :
    (((c :: rest).map (·.type)).dedup.length = 1) ↔
      (∀ x ∈ c :: rest, x.type = c.type) := by
  rw [← List.card_toFinset]
  constructor
  · intro h x hx
    obtain ⟨b, hb⟩ := Finset.card_eq_one.mp h
    have hcb : c.type ∈ ((c :: rest).map (·.type)).toFinset := by
      rw [List.mem_toFinset]
      exact List.mem_map_of_mem _ (List.mem_cons_self c rest)
    have hxb : x.type ∈ ((c :: rest).map (·.type)).toFinset := by
      rw [List.mem_toFinset]
      exact List.mem_map_of_mem _ hx
    rw [hb, Finset.mem_singleton] at hcb hxb
    rw [hxb, hcb]
  · intro h
    have hset : ((c :: rest).map (·.type)).toFinset = {c.type} := by
      apply Finset.ext
      intro t
      simp only [List.mem_toFinset, List.mem_map, Finset.mem_singleton]
      constructor
      · rintro ⟨x, hx, rfl⟩
        exact h x hx
      · intro ht
        exact ⟨c, List.mem_cons_self c rest, ht.symm⟩
    rw [hset, Finset.card_singleton]

/-- Claim-side reading of a non-singleton type set: some two cards differ in
type. -/
lemma mixed_types_iff (c : Card) (rest : List Card) :
    (¬ ∀ x ∈ c :: rest, x.type = c.type) ↔
      ∃ c1 ∈ c :: rest, ∃ c2 ∈ c :: rest, c1.type ≠ c2.type := by
  constructor
  · intro h
    push_neg at h
    obtain ⟨x, hx, hne⟩ := h
    exact ⟨x, hx, c, List.mem_cons_self c rest, hne⟩
  · rintro ⟨c1, h1, c2, h2, hne⟩ hall
    exact hne ((hall c1 h1).trans (hall c2 h2).symm)

/-! ## Claim theorem: requirement inference round-trip (C10) -/

/-- C10: for a non-empty selection, `inferRequirement` returns `null` exactly
when the selection mixes at least two resource types and its sorted levels
are not strictly increasing; and whenever it returns a requirement, that
requirement's count is the selection's size and the same selection is
accepted by `validateMove` under it with no last play. -/
theorem inferRequirement_roundtrip (cards : List Card) (hne : cards ≠ []) :
    (inferRequirement cards = none ↔
      ((∃ c1 ∈ cards, ∃ c2 ∈ cards, c1.type ≠ c2.type) ∧
        ¬ (sortLevels cards).Pairwise (· < ·))) ∧
    (∀ req, inferRequirement cards = some req →
      req.count = cards.length ∧
      (validateMove cards none (some req)).valid = true) := by
  cases cards with
  | nil => exact absurd rfl hne
  | cons c rest =>
    have hsame_val : ∀ (rt : ResourceType),
        (∀ x ∈ c :: rest, x.type = rt) →
        ∀ tp : RequirementType, tp = .SINGLE_FIXED ∨
          (tp = .SINGLE_ASC ∧ (sortLevels (c :: rest)).Pairwise (· < ·)) →
        ∀ d : String,
        (validateMove (c :: rest) none
          (some ⟨tp, some rt, (c :: rest).length, d⟩)).valid = true := by
      intro rt hall tp htp d
      refine validateMove_valid_of_checks _ _ _ rfl ?_ ?_ ?_
      · intro _ x hx
        simp only
        rw [hall x hx]
      · intro hdisj
        rcases htp with rfl | ⟨rfl, hpw⟩
        · rcases hdisj with hd | hd <;> cases hd
        · exact hpw
      · intro lp hlp; cases hlp
    simp only [inferRequirement]
    by_cases hone : (((c :: rest).map (·.type)).dedup.length = 1)
    · rw [if_pos hone]
      have hall := (dedup_types_len_one_iff c rest).mp hone
      have hnomix : ¬ ∃ c1 ∈ c :: rest, ∃ c2 ∈ c :: rest, c1.type ≠ c2.type :=
        fun hmix => (mixed_types_iff c rest).mpr hmix hall
      by_cases hc1 : (c :: rest).length = 1
      · rw [if_pos hc1]
        constructor
        · constructor
          · intro habs; cases habs
          · rintro ⟨hmix, _⟩; exact absurd hmix hnomix
        · intro req hreq
          cases hreq
          exact ⟨rfl, hsame_val c.type hall .SINGLE_FIXED (Or.inl rfl) _⟩
      · rw [if_neg hc1]
        by_cases hasc : strictAscCheck (sortLevels (c :: rest)) = true
        · rw [if_pos hasc]
          constructor
          · constructor
            · intro habs; cases habs
            · rintro ⟨hmix, _⟩; exact absurd hmix hnomix
          · intro req hreq
            cases hreq
            exact ⟨rfl, hsame_val c.type hall .SINGLE_ASC
              (Or.inr ⟨rfl, (strictAscCheck_eq_true_iff_pairwise _).mp hasc⟩) _⟩
        · rw [if_neg hasc]
          constructor
          · constructor
            · intro habs; cases habs
            · rintro ⟨hmix, _⟩; exact absurd hmix hnomix
          · intro req hreq
            cases hreq
            exact ⟨rfl, hsame_val c.type hall .SINGLE_FIXED (Or.inl rfl) _⟩
    · rw [if_neg hone]
      have hmix : ∃ c1 ∈ c :: rest, ∃ c2 ∈ c :: rest, c1.type ≠ c2.type := by
        refine (mixed_types_iff c rest).mp ?_
        intro hall
        exact hone ((dedup_types_len_one_iff c rest).mpr hall)
      by_cases hasc : strictAscCheck (sortLevels (c :: rest)) = true
      · rw [if_pos hasc]
        constructor
        · constructor
          · intro habs; cases habs
          · rintro ⟨_, hnpw⟩
            exact absurd ((strictAscCheck_eq_true_iff_pairwise _).mp hasc) hnpw
        · intro req hreq
          cases hreq
          refine ⟨rfl, validateMove_valid_of_checks _ _ _ rfl ?_ ?_ ?_⟩
          · intro hdisj
            rcases hdisj with hd | hd <;> cases hd
          · intro _
            exact (strictAscCheck_eq_true_iff_pairwise _).mp hasc
          · intro lp hlp; cases hlp
      · rw [if_neg hasc]
        constructor
        · constructor
          · intro _
            refine ⟨hmix, ?_⟩
            intro hpw
            exact hasc ((strictAscCheck_eq_true_iff_pairwise _).mpr hpw)
          · intro _; rfl
        · intro req hreq; cases hreq

/-- Witness for C10 at the singleton selection `[SOLDIER level 1]`. -/
theorem inferRequirement_roundtrip_witness :
    (([⟨"a", .SOLDIER, 1⟩] : List Card) ≠ []) ∧
    ((inferRequirement [⟨"a", .SOLDIER, 1⟩] = none ↔
      ((∃ c1 ∈ ([⟨"a", .SOLDIER, 1⟩] : List Card),
        ∃ c2 ∈ ([⟨"a", .SOLDIER, 1⟩] : List Card), c1.type ≠ c2.type) ∧
        ¬ (sortLevels [⟨"a", .SOLDIER, 1⟩]).Pairwise (· < ·))) ∧
    (∀ req, inferRequirement [⟨"a", .SOLDIER, 1⟩] = some req →
      req.count = ([⟨"a", .SOLDIER, 1⟩] : List Card).length ∧
      (validateMove [⟨"a", .SOLDIER, 1⟩] none (some req)).valid = true)) :=
  ⟨by decide, inferRequirement_roundtrip [⟨"a", .SOLDIER, 1⟩] (by decide)⟩

/-! ## Helper lemmas: turn advancement -/

/-- One unfolding of the scan loop: check the current index, then move on. -/
lemma scanNext_succ (ps : List Player) (li : Option PlayedSet) (n f : Nat) :
    scanNext ps li n (f + 1) =
      ((scanHit ps li n).orElse
        (fun _ => scanNext ps li ((n + 1) % PLAYERS_COUNT) f)) := by
  simp only [scanNext, scanHit]
  split_ifs <;> rfl

/-- The fuelled scan is the first hit over the visited index chain. -/
lemma scanNext_eq_findSome_chain (ps : List Player) (li : Option PlayedSet) :
    ∀ (f n : Nat), scanNext ps li n f = (indexChain n f).findSome? (scanHit ps li) := by
  intro f
  induction f with
  | zero => intro n; rfl
  | succ f ih =>
    intro n
    rw [scanNext_succ]
    show _ = (n :: indexChain ((n + 1) % PLAYERS_COUNT) f).findSome? (scanHit ps li)
    cases hh : scanHit ps li n with
    | some r => simp [List.findSome?, hh, Option.orElse]
    | none => simp [List.findSome?, hh, Option.orElse, ih]

/-- Starting after index `cur` with fuel `PLAYERS_COUNT`, the visited chain is
the claim's scan order: at most once fully around the player set. -/
lemma indexChain_eq_scanOrder (cur : Nat) :
    indexChain ((cur + 1) % PLAYERS_COUNT) PLAYERS_COUNT = scanOrder cur := by
  show [(cur + 1) % PLAYERS_COUNT,
      ((cur + 1) % PLAYERS_COUNT + 1) % PLAYERS_COUNT,
      (((cur + 1) % PLAYERS_COUNT + 1) % PLAYERS_COUNT + 1) % PLAYERS_COUNT,
      ((((cur + 1) % PLAYERS_COUNT + 1) % PLAYERS_COUNT + 1) % PLAYERS_COUNT + 1) %
        PLAYERS_COUNT] = scanOrder cur
  have e2 : ((cur + 1) % PLAYERS_COUNT + 1) % PLAYERS_COUNT =
      (cur + 2) % PLAYERS_COUNT := by simp only [PLAYERS_COUNT]; omega
  have e3 : ((cur + 2) % PLAYERS_COUNT + 1) % PLAYERS_COUNT =
      (cur + 3) % PLAYERS_COUNT := by simp only [PLAYERS_COUNT]; omega
  have e4 : ((cur + 3) % PLAYERS_COUNT + 1) % PLAYERS_COUNT =
      (cur + 4) % PLAYERS_COUNT := by simp only [PLAYERS_COUNT]; omega
  rw [scanOrder, e2, e3, e4]

/-- `advanceTurn` rewritten through the claim's scan order. -/
lemma advanceTurn_eq (ps : List Player) (stack : List PlayedSet) (cur : Nat) :
    advanceTurn ps stack cur =
      (match (scanOrder cur).findSome? (scanHit ps stack.getLast?) with
       | some r => r
       | none =>
         match stack.getLast? with
         | some it => .roundEnd it.playerId
         | none => .next ((cur + 1) % PLAYERS_COUNT)) := by
  simp only [advanceTurn]
  rw [scanNext_eq_findSome_chain, indexChain_eq_scanOrder]

/-! ## Helper lemmas: the state machine -/

/-- Setting an entry that agrees on a projection leaves the projected list
unchanged. -/
lemma map_proj_set {β : Type} (f : Player → β) (l : List Player) :
    ∀ (i : Nat) (x : Player), f x = f (l.getD i dummyPlayer) →
      (l.set i x).map f = l.map f := by
  induction l with
  | nil => intro i x _; rfl
  | cons p t ih =>
    intro i x h
    cases i with
    | zero =>
      simp only [List.getD_cons_zero] at h
      simp only [List.set_cons_zero, List.map_cons, h]
    | succ i =>
      simp only [List.getD_cons_succ] at h
      simp only [List.set_cons_succ, List.map_cons, ih i x h]

/-- Mapping an id-preserving function leaves the id list unchanged. -/
lemma map_proj_map {β : Type} (f : Player → β) (g : Player → Player)
    (h : ∀ p, f (g p) = f p) (l : List Player) :
    (l.map g).map f = l.map f := by
  rw [List.map_map]
  exact List.map_congr_left (fun p _ => h p)

/-- `sumMedals` of a cons. -/
lemma sumMedals_cons (p : Player) (t : List Player) :
    sumMedals (p :: t) = p.medals + sumMedals t := by
  simp [sumMedals]

/-- `sumMedals` only depends on the medal projection. -/
lemma sumMedals_eq_of_map_eq {l1 l2 : List Player}
    (h : l1.map (·.medals) = l2.map (·.medals)) : sumMedals l1 = sumMedals l2 := by
  unfold sumMedals
  rw [h]

/-- The medal award touches nobody whose id is absent. -/
lemma award_of_not_mem (wid : String) (l : List Player)
    (h : wid ∉ l.map (·.id)) :
    l.map (fun p => if p.id == wid then { p with medals := p.medals + 1 } else p) = l := by
  induction l with
  | nil => rfl
  | cons p t ih =>
    simp only [List.map_cons, List.mem_cons, not_or] at h ⊢
    have hne : (p.id == wid) = false := by
      rw [beq_eq_false_iff_ne]
      intro heq
      exact h.1 heq.symm
    rw [hne]
    simp only [Bool.false_eq_true, if_false]
    rw [ih h.2]

/-- With unique ids, the medal award adds exactly one medal in total. -/
lemma sumMedals_award (wid : String) (l : List Player)
    (hmem : wid ∈ l.map (·.id)) (hnodup : (l.map (·.id)).Nodup) :
    sumMedals (l.map
      (fun p => if p.id == wid then { p with medals := p.medals + 1 } else p)) =
      sumMedals l + 1 := by
  induction l with
  | nil => cases hmem
  | cons p t ih =>
    simp only [List.map_cons, List.nodup_cons] at hnodup
    simp only [List.map_cons, List.mem_cons] at hmem
    simp only [List.map_cons]
    cases hpw : (p.id == wid) with
    | true =>
      have hpid : p.id = wid := eq_of_beq hpw
      have hwnot : wid ∉ t.map (·.id) := hpid ▸ hnodup.1
      rw [if_pos rfl, award_of_not_mem wid t hwnot,
        sumMedals_cons, sumMedals_cons]
      show p.medals + 1 + sumMedals t = p.medals + sumMedals t + 1
      omega
    | false =>
      have hpid : p.id ≠ wid := by
        rw [beq_eq_false_iff_ne] at hpw
        exact hpw
      have hmem2 : wid ∈ t.map (·.id) := by
        rcases hmem with heq | hmem2
        · exact absurd heq.symm hpid
        · exact hmem2
      rw [if_neg (by simp), sumMedals_cons, sumMedals_cons,
        ih hmem2 hnodup.2]
      omega

/-- The per-player (id, medals) pairs after the award: the winner id gains
one medal, everyone else is unchanged. -/
lemma award_pairs (wid : String) (l : List Player) :
    (l.map (fun p => if p.id == wid then { p with medals := p.medals + 1 } else p)).map
        (fun p => (p.id, p.medals)) =
      l.map (fun p => (p.id, if p.id = wid then p.medals + 1 else p.medals)) := by
  induction l with
  | nil => rfl
  | cons p t ih =>
    simp only [List.map_cons, ih]
    cases hpw : (p.id == wid) with
    | true =>
      have hpid : p.id = wid := eq_of_beq hpw
      rw [if_pos rfl, if_pos hpid]
    | false =>
      have hpid : p.id ≠ wid := by
        rw [beq_eq_false_iff_ne] at hpw
        exact hpw
      rw [if_neg (by simp), if_neg hpid]

/-- A hand of all-zero medals sums to zero. -/
lemma sumMedals_eq_zero (l : List Player) (h : ∀ p ∈ l, p.medals = 0) :
    sumMedals l = 0 := by
  induction l with
  | nil => rfl
  | cons p t ih =>
    rw [sumMedals_cons, h p (List.mem_cons_self p t),
      ih (fun q hq => h q (List.mem_cons_of_mem p hq))]

/-- `handleGameEnd` changes only `phase` and `winner`, so it preserves the
invariant. -/
lemma inv_handleGameEnd (x : GameState) (h : Inv x) : Inv (handleGameEnd x) := h

/-- `handleRoundEnd` preserves the invariant when the winner is one of the
players. -/
lemma handleRoundEnd_inv (s : GameState) (wid : String) (hinv : Inv s)
    (hmem : wid ∈ s.players.map (·.id)) : Inv (handleRoundEnd s wid) := by
  obtain ⟨hids, hsum, _⟩ := hinv
  have hnodup : (s.players.map (·.id)).Nodup := by rw [hids]; decide
  refine ⟨?_, ?_, ?_⟩
  · show (((s.players.map
        (fun p => if p.id == wid then { p with medals := p.medals + 1 } else p)).map
        (fun p => { p with passedThisRound := false })).map (·.id)) = _
    rw [map_proj_map (·.id) (fun p => { p with passedThisRound := false }) (fun p => rfl),
      map_proj_map (·.id)
        (fun p => if p.id == wid then { p with medals := p.medals + 1 } else p)
        (fun p => by by_cases h : p.id == wid <;> simp [h])]
    exact hids
  · show sumMedals ((s.players.map
        (fun p => if p.id == wid then { p with medals := p.medals + 1 } else p)).map
        (fun p => { p with passedThisRound := false })) + 1 = s.roundNumber + 1
    rw [sumMedals_eq_of_map_eq
        (map_proj_map (·.medals) (fun p => { p with passedThisRound := false })
          (fun p => rfl) _),
      sumMedals_award wid s.players hmem hnodup]
    omega
  · intro it hit; cases hit

/-- A round winner reported by the scan loop is one of the players. -/
lemma scanNext_roundEnd_mem (ps : List Player) (li : Option PlayedSet)
    (hlen : ps.length = PLAYERS_COUNT) :
    ∀ (f n : Nat), n < PLAYERS_COUNT →
      ∀ wid, scanNext ps li n f = some (.roundEnd wid) → wid ∈ ps.map (·.id) := by
  intro f
  induction f with
  | zero => intro n _ wid h; cases h
  | succ f ih =>
    intro n hn wid h
    rw [scanNext_succ] at h
    cases hh : scanHit ps li n with
    | some r =>
      rw [hh] at h
      simp only [Option.orElse] at h
      have hr : r = .roundEnd wid := by cases h; rfl
      simp only [scanHit] at hh
      split_ifs at hh with h1 h2
      · have hwid : wid = (ps.getD n dummyPlayer).id := by
          rw [hr] at hh
          cases hh
          rfl
        have hmem : ps.getD n dummyPlayer ∈ ps := by
          rw [List.getD_eq_getElem ps dummyPlayer (hlen ▸ hn)]
          exact List.getElem_mem _
        rw [hwid]
        exact List.mem_map_of_mem _ hmem
      · rw [hr] at hh
        cases hh
    | none =>
      rw [hh] at h
      simp only [Option.orElse] at h
      exact ih ((n + 1) % PLAYERS_COUNT) (Nat.mod_lt _ (by decide)) wid h

/-- A round winner reported by `advanceTurn` is one of the players, given the
stack-ownership invariant. -/
lemma advanceTurn_roundEnd_mem (ps : List Player) (stack : List PlayedSet)
    (cur : Nat) (hlen : ps.length = PLAYERS_COUNT)
    (hstk : ∀ it ∈ stack, it.playerId ∈ ps.map (·.id)) :
    ∀ wid, advanceTurn ps stack cur = .roundEnd wid → wid ∈ ps.map (·.id) := by
  intro wid h
  simp only [advanceTurn] at h
  split at h
  next r heq =>
    rw [h] at heq
    exact scanNext_roundEnd_mem ps _ hlen PLAYERS_COUNT _
      (Nat.mod_lt _ (by decide)) wid heq
  next heq =>
    split at h
    next it heq2 =>
      cases h
      exact hstk it (List.mem_of_mem_getLast? heq2)
    next heq2 => cases h

/-- Updating players/stack/selection preserves the invariant when ids and
medals are untouched and new stack entries belong to players. -/
lemma inv_step_state (s : GameState) (ps2 : List Player) (stack2 : List PlayedSet)
    (sel2 : List String)
    (hids2 : ps2.map (·.id) = s.players.map (·.id))
    (hmeds2 : ps2.map (·.medals) = s.players.map (·.medals))
    (hstk2 : ∀ it ∈ stack2, it.playerId ∈ s.players.map (·.id))
    (hinv : Inv s) :
    Inv { s with players := ps2, tableStack := stack2, selectedCardIds := sel2 } := by
  obtain ⟨hids, hsum, _⟩ := hinv
  refine ⟨by rw [hids2, hids],
    by rw [sumMedals_eq_of_map_eq hmeds2]; exact hsum, ?_⟩
  intro it hit
  rw [hids2]
  exact hstk2 it hit

/-- The post-action turn advancement preserves the invariant. -/
lemma inv_advance (s1 : GameState) (cur : Nat) (hinv : Inv s1)
    (hlen : s1.players.length = PLAYERS_COUNT) :
    Inv (match advanceTurn s1.players s1.tableStack cur with
         | .next idx => { s1 with activePlayerIndex := idx }
         | .roundEnd wid => handleRoundEnd s1 wid) := by
  split
  next idx heq => exact hinv
  next wid heq =>
    exact handleRoundEnd_inv s1 wid hinv
      (advanceTurn_roundEnd_mem s1.players s1.tableStack cur hlen hinv.2.2 wid heq)

/-- The player list keeps its four fixed ids, hence its length. -/
lemma players_length_four (s : GameState) (hinv : Inv s) :
    s.players.length = PLAYERS_COUNT := by
  have h := congrArg List.length hinv.1
  rw [List.length_map] at h
  simpa [PLAYERS_COUNT] using h

/-- `executePlay` preserves the invariant for a play by one of the players. -/
lemma executePlay_inv (s : GameState) (pid : String) (cards : List Card)
    (hinv : Inv s) (hpid : pid ∈ s.players.map (·.id)) :
    Inv (executePlay s pid cards) := by
  have hinv1 : Inv { s with
      players := s.players.set (s.players.findIdx (fun p => p.id == pid))
        { s.players.getD (s.players.findIdx (fun p => p.id == pid)) dummyPlayer with
          hand := (s.players.getD (s.players.findIdx (fun p => p.id == pid))
            dummyPlayer).hand.filter
              (fun c => !((cards.map (·.id)).contains c.id)) }
      tableStack := s.tableStack ++ [⟨pid, cards, 0⟩]
      selectedCardIds := ([] : List String) } := by
    refine inv_step_state s _ _ _ ?_ ?_ ?_ hinv
    · exact map_proj_set (·.id) s.players _ _ rfl
    · exact map_proj_set (·.medals) s.players _ _ rfl
    · intro it hit
      rcases List.mem_append.mp hit with hold | hnew
      · exact hinv.2.2 it hold
      · rw [List.mem_singleton.mp hnew]
        exact hpid
  have hlen1 := players_length_four _ hinv1
  simp only [executePlay]
  split
  next hlen0 => exact inv_handleGameEnd _ hinv1
  next hlen0 => exact inv_advance _ s.activePlayerIndex hinv1 hlen1

/-- `executePass` preserves the invariant. -/
lemma executePass_inv (s : GameState) (pid : String) (hinv : Inv s) :
    Inv (executePass s pid) := by
  have hinv1 : Inv { s with
      players := s.players.set (s.players.findIdx (fun p => p.id == pid))
        { s.players.getD (s.players.findIdx (fun p => p.id == pid)) dummyPlayer with
          passedThisRound := true } } := by
    have h := inv_step_state s
      (s.players.set (s.players.findIdx (fun p => p.id == pid))
        { s.players.getD (s.players.findIdx (fun p => p.id == pid)) dummyPlayer with
          passedThisRound := true })
      s.tableStack s.selectedCardIds
      (map_proj_set (·.id) s.players _ _ rfl)
      (map_proj_set (·.medals) s.players _ _ rfl)
      (by intro it hit
          exact hinv.2.2 it hit)
      hinv
    exact h
  have hlen1 := players_length_four _ hinv1
  simp only [executePass]
  exact inv_advance _ s.activePlayerIndex hinv1 hlen1

/-- The head card-holder's id is among the player ids. -/
lemma getD_zero_id_mem (l : List Player) (hne : l ≠ []) :
    (l.getD 0 dummyPlayer).id ∈ l.map (·.id) := by
  cases l with
  | nil => exact absurd rfl hne
  | cons p t => simp [List.getD_cons_zero]

/-- The human-dealer open path preserves the invariant. -/
lemma dealerPlay_inv (s : GameState) (req : RoundRequirement) (cards : List Card)
    (hinv : Inv s) : Inv (dealerPlay s req cards) := by
  have hne : s.players ≠ [] := by
    intro h
    have hids := hinv.1
    rw [h] at hids
    cases hids
  have hinv2 : Inv { s with
      roundRequirement := some req
      phase := GamePhase.PLAYING
      tableStack := ([] : List PlayedSet) } :=
    ⟨hinv.1, hinv.2.1, by intro it hit; cases hit⟩
  exact executePlay_inv _ _ cards hinv2 (getD_zero_id_mem s.players hne)

/-- `handleDealerSubmit` preserves the invariant. -/
lemma handleDealerSubmit_inv (s : GameState) (req : RoundRequirement)
    (hinv : Inv s) : Inv (handleDealerSubmit s req) := by
  refine ⟨?_, ?_, ?_⟩
  · show ((s.players.map (fun p => { p with passedThisRound := false })).map (·.id)) = _
    rw [map_proj_map (·.id) (fun p => { p with passedThisRound := false }) (fun p => rfl)]
    exact hinv.1
  · show sumMedals (s.players.map (fun p => { p with passedThisRound := false })) + 1 =
      s.roundNumber
    rw [sumMedals_eq_of_map_eq
        (map_proj_map (·.medals) (fun p => { p with passedThisRound := false })
          (fun p => rfl) _)]
    exact hinv.2.1
  · intro it hit; cases hit

/-- The human mash preserves the invariant. -/
lemma humanMash_inv (s : GameState) (cid : String) (r : ℚ) (hinv : Inv s) :
    Inv (humanMash s cid r) := by
  obtain ⟨hids, hsum, hstk⟩ := hinv
  cases hp : s.players with
  | nil => rw [hp] at hids; cases hids
  | cons p0 t =>
    rw [hp] at hids hsum hstk
    simp only [humanMash, hp]
    refine ⟨?_, ?_, ?_⟩
    · simpa using hids
    · rw [sumMedals_cons] at hsum ⊢
      show p0.medals + sumMedals t + 1 = s.roundNumber
      omega
    · intro it hit
      have hm := hstk it hit
      simpa using hm

/-- The bot-cheat mash preserves the invariant. -/
lemma botMash_inv (s : GameState) (i j : Nat) (r : ℚ) (hinv : Inv s) :
    Inv (botMash s i j r) := by
  obtain ⟨hids, hsum, hstk⟩ := hinv
  have hids2 : (botMash s i j r).players.map (·.id) = s.players.map (·.id) :=
    map_proj_set (·.id) s.players _ _ rfl
  have hmeds2 : (botMash s i j r).players.map (·.medals) = s.players.map (·.medals) :=
    map_proj_set (·.medals) s.players _ _ rfl
  refine ⟨?_, ?_, ?_⟩
  · rw [hids2]; exact hids
  · show sumMedals (botMash s i j r).players + 1 = s.roundNumber
    rw [sumMedals_eq_of_map_eq hmeds2]; exact hsum
  · intro it hit
    rw [hids2]
    exact hstk it hit

/-- Every enabled action preserves the invariant. -/
lemma step_preserves_inv (s : GameState) (a : Action) (hinv : Inv s)
    (hen : Enabled s a) : Inv (applyAction s a) := by
  cases a with
  | dealerSubmit req => exact handleDealerSubmit_inv s req hinv
  | dealerOpen req cards => exact dealerPlay_inv s req cards hinv
  | play pid cards => exact executePlay_inv s pid cards hinv hen.2
  | pass pid => exact executePass_inv s pid hinv
  | claimRound pid => exact handleRoundEnd_inv s pid hinv hen.2.1
  | mashHuman cid r => exact humanMash_inv s cid r hinv
  | mashBot i j r => exact botMash_inv s i j r hinv

/-- The invariant holds in every reachable state. -/
lemma reachable_inv (s : GameState) (h : Reachable s) : Inv s := by
  induction h with
  | init s hs =>
    obtain ⟨hids, hme, _, _, _, _, hstack, hround, _⟩ := hs
    refine ⟨hids, ?_, ?_⟩
    · rw [sumMedals_eq_zero s.players (fun p hp => (hme p hp).1), hround]
    · intro it hit
      rw [hstack] at hit
      cases hit
  | step s a hr hen ih => exact step_preserves_inv s a ih hen

/-! ## Claim theorem: turn advancement (C4) -/

/-- C4: after a play or pass, turn advancement scans forward from the next
index at most once fully around the 4-player set (`scanOrder`); the first
index at which either the scanned player owns the stack top (round winner) or
has not passed (new active player) decides the outcome (`scanHit`); and if the
scan exhausts without either outcome — possible only with an empty stack and
every player passed — the active index simply advances by one. -/
theorem advanceTurn_scan_characterization (ps : List Player)
    (stack : List PlayedSet) (cur : Nat)
    (hlen : ps.length = PLAYERS_COUNT)
    (hown : ∀ it ∈ stack, ∃ p ∈ ps, p.id = it.playerId) :
    (∀ r, (scanOrder cur).findSome? (scanHit ps stack.getLast?) = some r →
      advanceTurn ps stack cur = r) ∧
    ((scanOrder cur).findSome? (scanHit ps stack.getLast?) = none →
      stack = [] ∧ (∀ p ∈ ps, p.passedThisRound = true) ∧
      advanceTurn ps stack cur = .next ((cur + 1) % PLAYERS_COUNT)) := by
  constructor
  · intro r hr
    rw [advanceTurn_eq, hr]
  · intro hnone
    have hall : ∀ j ∈ scanOrder cur, scanHit ps stack.getLast? j = none :=
      List.findSome?_eq_none.mp hnone
    have hmem4 : ∀ j, j < PLAYERS_COUNT → j ∈ scanOrder cur := by
      intro j hj
      simp only [scanOrder, PLAYERS_COUNT, List.mem_cons, List.not_mem_nil, or_false] at *
      omega
    have hpassed : ∀ p ∈ ps, p.passedThisRound = true := by
      intro p hp
      obtain ⟨j, hj, hget⟩ := List.mem_iff_getElem.mp hp
      have hj4 : j < PLAYERS_COUNT := hlen ▸ hj
      have hhit := hall j (hmem4 j hj4)
      have hgetD : ps.getD j dummyPlayer = p := by
        rw [List.getD_eq_getElem ps dummyPlayer hj, hget]
      simp only [scanHit] at hhit
      rw [hgetD] at hhit
      split_ifs at hhit with h1 h2
      simpa using h2
    have hstack : stack = [] := by
      by_contra hne
      cases hlast : stack.getLast? with
      | none => exact hne (List.getLast?_eq_none.mp hlast)
      | some it =>
        have hitmem : it ∈ stack := List.mem_of_mem_getLast? hlast
        obtain ⟨p, hpmem, hpid⟩ := hown it hitmem
        obtain ⟨j, hj, hget⟩ := List.mem_iff_getElem.mp hpmem
        have hj4 : j < PLAYERS_COUNT := hlen ▸ hj
        have hhit := hall j (hmem4 j hj4)
        have hgetD : ps.getD j dummyPlayer = p := by
          rw [List.getD_eq_getElem ps dummyPlayer hj, hget]
        simp only [scanHit] at hhit
        rw [hgetD, hlast] at hhit
        have hcond : (Option.some it).any (fun it2 => p.id == it2.playerId) = true := by
          simp [Option.any, hpid]
        rw [if_pos hcond] at hhit
        cases hhit
    refine ⟨hstack, hpassed, ?_⟩
    rw [advanceTurn_eq, hnone, hstack]
    rfl

/-- Witness for C4: four passed players, empty stack, current index 0 — the
scan exhausts and the active index advances to 1. -/
theorem advanceTurn_scan_characterization_witness :
    (([⟨"P1", "", false, [], 0, true⟩, ⟨"P2", "", false, [], 0, true⟩,
       ⟨"P3", "", false, [], 0, true⟩, ⟨"P4", "", false, [], 0, true⟩] :
        List Player).length = PLAYERS_COUNT ∧
      (∀ it ∈ ([] : List PlayedSet),
        ∃ p ∈ ([⟨"P1", "", false, [], 0, true⟩, ⟨"P2", "", false, [], 0, true⟩,
                ⟨"P3", "", false, [], 0, true⟩, ⟨"P4", "", false, [], 0, true⟩] :
          List Player), p.id = it.playerId)) ∧
    ((∀ r, (scanOrder 0).findSome?
        (scanHit [⟨"P1", "", false, [], 0, true⟩, ⟨"P2", "", false, [], 0, true⟩,
                  ⟨"P3", "", false, [], 0, true⟩, ⟨"P4", "", false, [], 0, true⟩]
          (([] : List PlayedSet)).getLast?) = some r →
      advanceTurn [⟨"P1", "", false, [], 0, true⟩, ⟨"P2", "", false, [], 0, true⟩,
                   ⟨"P3", "", false, [], 0, true⟩, ⟨"P4", "", false, [], 0, true⟩] [] 0 = r) ∧
    ((scanOrder 0).findSome?
        (scanHit [⟨"P1", "", false, [], 0, true⟩, ⟨"P2", "", false, [], 0, true⟩,
                  ⟨"P3", "", false, [], 0, true⟩, ⟨"P4", "", false, [], 0, true⟩]
          (([] : List PlayedSet)).getLast?) = none →
      ([] : List PlayedSet) = [] ∧
      (∀ p ∈ ([⟨"P1", "", false, [], 0, true⟩, ⟨"P2", "", false, [], 0, true⟩,
               ⟨"P3", "", false, [], 0, true⟩, ⟨"P4", "", false, [], 0, true⟩] :
          List Player), p.passedThisRound = true) ∧
      advanceTurn [⟨"P1", "", false, [], 0, true⟩, ⟨"P2", "", false, [], 0, true⟩,
                   ⟨"P3", "", false, [], 0, true⟩, ⟨"P4", "", false, [], 0, true⟩] [] 0 =
        .next ((0 + 1) % PLAYERS_COUNT))) :=
  ⟨⟨by decide, by intro it hit; cases hit⟩,
    advanceTurn_scan_characterization
      [⟨"P1", "", false, [], 0, true⟩, ⟨"P2", "", false, [], 0, true⟩,
       ⟨"P3", "", false, [], 0, true⟩, ⟨"P4", "", false, [], 0, true⟩] [] 0
      (by decide) (by intro it hit; cases hit)⟩

/-! ## Helper lemma: when a committed play ends the game -/

/-- `executePlay` reaches `GAME_END` exactly when it empties the playing
player's hand (for a state not already at `GAME_END`). -/
lemma executePlay_game_end_iff (s : GameState) (pid : String) (cards : List Card)
    (hphase : s.phase ≠ .GAME_END) :
    ((executePlay s pid cards).phase = .GAME_END ↔
      remainingHand (s.players.getD (s.players.findIdx (fun p => p.id == pid))
        dummyPlayer).hand cards = []) := by
  simp only [executePlay]
  split
  next h =>
    constructor
    · intro _
      exact List.length_eq_zero.mp h
    · intro _
      rfl
  next h =>
    split
    next idx heq =>
      constructor
      · intro habs
        exact absurd habs hphase
      · intro hrem
        exact absurd (List.length_eq_zero.mpr hrem) h
    next wid heq =>
      constructor
      · intro habs
        have habs2 : GamePhase.DEALER_SELECTION = GamePhase.GAME_END := habs
        cases habs2
      · intro hrem
        exact absurd (List.length_eq_zero.mpr hrem) h

/-! ## Claim theorems: game end on hand emptiness (C5) -/

/-- Counterexample to C5's "with that player as the game winner": `P1`
empties their hand, the game ends at once, but the displayed winner is the
medal leader `P2`, not `P1`. -/
theorem game_winner_is_medal_leader_not_emptier :
    (executePlay
        { players :=
            [⟨"P1", "p1", true, [⟨"c1", .SOLDIER, 3⟩], 0, false⟩,
             ⟨"P2", "p2", false, [⟨"x", .TOWER, 1⟩], 1, false⟩,
             ⟨"P3", "p3", false, [⟨"y", .FARM, 1⟩], 0, false⟩,
             ⟨"P4", "p4", false, [⟨"z", .ORE, 1⟩], 0, false⟩]
          phase := .PLAYING
          activePlayerIndex := 0
          dealerIndex := 0
          roundRequirement := some ⟨.SINGLE_FIXED, some .SOLDIER, 1, ""⟩
          tableStack := []
          selectedCardIds := []
          roundNumber := 2
          winner := none }
        "P1" [⟨"c1", .SOLDIER, 3⟩]).phase = .GAME_END ∧
    (executePlay
        { players :=
            [⟨"P1", "p1", true, [⟨"c1", .SOLDIER, 3⟩], 0, false⟩,
             ⟨"P2", "p2", false, [⟨"x", .TOWER, 1⟩], 1, false⟩,
             ⟨"P3", "p3", false, [⟨"y", .FARM, 1⟩], 0, false⟩,
             ⟨"P4", "p4", false, [⟨"z", .ORE, 1⟩], 0, false⟩]
          phase := .PLAYING
          activePlayerIndex := 0
          dealerIndex := 0
          roundRequirement := some ⟨.SINGLE_FIXED, some .SOLDIER, 1, ""⟩
          tableStack := []
          selectedCardIds := []
          roundNumber := 2
          winner := none }
        "P1" [⟨"c1", .SOLDIER, 3⟩]).winner.map (·.id) = some "P2" ∧
    ¬((executePlay
        { players :=
            [⟨"P1", "p1", true, [⟨"c1", .SOLDIER, 3⟩], 0, false⟩,
             ⟨"P2", "p2", false, [⟨"x", .TOWER, 1⟩], 1, false⟩,
             ⟨"P3", "p3", false, [⟨"y", .FARM, 1⟩], 0, false⟩,
             ⟨"P4", "p4", false, [⟨"z", .ORE, 1⟩], 0, false⟩]
          phase := .PLAYING
          activePlayerIndex := 0
          dealerIndex := 0
          roundRequirement := some ⟨.SINGLE_FIXED, some .SOLDIER, 1, ""⟩
          tableStack := []
          selectedCardIds := []
          roundNumber := 2
          winner := none }
        "P1" [⟨"c1", .SOLDIER, 3⟩]).winner.map (·.id) = some "P1") := by
  refine ⟨rfl, rfl, by decide⟩

/-- C5 as amended: a committed play that empties the playing player's hand
moves the game to `GAME_END` immediately — no round winner is determined, no
medal is awarded and the round counter is untouched — and, over all enabled
actions, the phase becomes `GAME_END` exactly when a play (normal or
dealer-open) empties the player's hand.  The declared game winner, however,
is the head of the players sorted by medals descending (first index on ties),
not necessarily the player who emptied their hand. -/
theorem game_end_iff_hand_emptied :
    (∀ (s : GameState) (pid : String) (cards : List Card),
      remainingHand (s.players.getD (s.players.findIdx (fun p => p.id == pid))
        dummyPlayer).hand cards = [] →
      (executePlay s pid cards).phase = .GAME_END ∧
      (executePlay s pid cards).roundNumber = s.roundNumber ∧
      (executePlay s pid cards).players.map (·.medals) = s.players.map (·.medals) ∧
      (executePlay s pid cards).winner =
        (List.insertionSort moreMedals (executePlay s pid cards).players).head?) ∧
    (∀ (s : GameState) (a : Action), Enabled s a → s.phase ≠ .GAME_END →
      ((applyAction s a).phase = .GAME_END ↔
        (match a with
         | .play pid cards =>
           remainingHand (s.players.getD (s.players.findIdx (fun p => p.id == pid))
             dummyPlayer).hand cards = []
         | .dealerOpen _ cards =>
           remainingHand (s.players.getD (s.players.findIdx
             (fun p => p.id == (s.players.getD 0 dummyPlayer).id))
             dummyPlayer).hand cards = []
         | _ => False))) := by
  constructor
  · intro s pid cards hrem
    have h0 : ((s.players.getD (s.players.findIdx (fun p => p.id == pid))
        dummyPlayer).hand.filter
          (fun c => !((cards.map (·.id)).contains c.id))).length = 0 :=
      List.length_eq_zero.mpr hrem
    have hplay : executePlay s pid cards = handleGameEnd { s with
        players := s.players.set (s.players.findIdx (fun p => p.id == pid))
          { s.players.getD (s.players.findIdx (fun p => p.id == pid)) dummyPlayer with
            hand := (s.players.getD (s.players.findIdx (fun p => p.id == pid))
              dummyPlayer).hand.filter (fun c => !((cards.map (·.id)).contains c.id)) }
        tableStack := s.tableStack ++ [⟨pid, cards, 0⟩]
        selectedCardIds := ([] : List String) } := by
      simp only [executePlay]
      rw [if_pos h0]
    rw [hplay]
    refine ⟨rfl, rfl, ?_, rfl⟩
    exact map_proj_set (·.medals) s.players _ _ rfl
  · intro s a hen hphase
    cases a with
    | dealerSubmit req =>
      exact iff_false_intro
        (fun habs => GamePhase.noConfusion (habs : GamePhase.PLAYING = .GAME_END))
    | dealerOpen req cards =>
      exact executePlay_game_end_iff
        { s with roundRequirement := some req, phase := .PLAYING, tableStack := [] }
        ((s.players.getD 0 dummyPlayer).id) cards
        (fun habs => GamePhase.noConfusion (habs : GamePhase.PLAYING = .GAME_END))
    | play pid cards => exact executePlay_game_end_iff s pid cards hphase
    | pass pid =>
      simp only [applyAction, executePass]
      split
      next idx heq => exact iff_false_intro (fun habs => hphase habs)
      next wid heq =>
        exact iff_false_intro
          (fun habs => GamePhase.noConfusion
            (habs : GamePhase.DEALER_SELECTION = .GAME_END))
    | claimRound pid =>
      exact iff_false_intro
        (fun habs => GamePhase.noConfusion
          (habs : GamePhase.DEALER_SELECTION = .GAME_END))
    | mashHuman cid r => exact iff_false_intro (fun habs => hphase habs)
    | mashBot i j r => exact iff_false_intro (fun habs => hphase habs)

/-- Witness for C5 (amended): `P1` plays their last card in the
counterexample state; the game ends immediately with medals and round counter
untouched. -/
theorem game_end_iff_hand_emptied_witness :
    (remainingHand
        ((initDemoState.players.getD
          (initDemoState.players.findIdx (fun p => p.id == "P1")) dummyPlayer)).hand
        [⟨"h1", .SOLDIER, 3⟩] = []) ∧
    ((executePlay initDemoState "P1" [⟨"h1", .SOLDIER, 3⟩]).phase = .GAME_END ∧
      (executePlay initDemoState "P1" [⟨"h1", .SOLDIER, 3⟩]).roundNumber =
        initDemoState.roundNumber ∧
      (executePlay initDemoState "P1" [⟨"h1", .SOLDIER, 3⟩]).players.map (·.medals) =
        initDemoState.players.map (·.medals) ∧
      (executePlay initDemoState "P1" [⟨"h1", .SOLDIER, 3⟩]).winner =
        (List.insertionSort moreMedals
          (executePlay initDemoState "P1" [⟨"h1", .SOLDIER, 3⟩]).players).head?) :=
  ⟨by decide, game_end_iff_hand_emptied.1 initDemoState "P1" [⟨"h1", .SOLDIER, 3⟩] (by decide)⟩

/-! ## Claim theorem: medals count completed rounds (C6) -/

/-- C6: in every state reachable from the initial deal the total medals lag
the round counter by exactly one (i.e. equal the number of completed rounds),
and `handleRoundEnd` awards exactly one medal — to the round winner and to no
one else — makes the winner dealer and active player, increments the round
counter, clears stack and requirement, and resets all pass flags. -/
theorem medals_equal_completed_rounds :
    (∀ s : GameState, Reachable s → sumMedals s.players + 1 = s.roundNumber) ∧
    (∀ (s : GameState) (wid : String),
      (s.players.map (·.id)).Nodup → wid ∈ s.players.map (·.id) →
      sumMedals (handleRoundEnd s wid).players = sumMedals s.players + 1 ∧
      (handleRoundEnd s wid).players.map (fun p => (p.id, p.medals)) =
        s.players.map (fun p => (p.id, if p.id = wid then p.medals + 1 else p.medals)) ∧
      (handleRoundEnd s wid).dealerIndex = s.players.findIdx (fun p => p.id == wid) ∧
      (handleRoundEnd s wid).activePlayerIndex =
        s.players.findIdx (fun p => p.id == wid) ∧
      (handleRoundEnd s wid).roundNumber = s.roundNumber + 1 ∧
      (handleRoundEnd s wid).phase = .DEALER_SELECTION ∧
      (handleRoundEnd s wid).tableStack = [] ∧
      (handleRoundEnd s wid).roundRequirement = none ∧
      ∀ p ∈ (handleRoundEnd s wid).players, p.passedThisRound = false) := by
  constructor
  · intro s h
    exact (reachable_inv s h).2.1
  · intro s wid hnodup hmem
    refine ⟨?_, ?_, rfl, rfl, rfl, rfl, rfl, rfl, ?_⟩
    · show sumMedals ((s.players.map
          (fun p => if p.id == wid then { p with medals := p.medals + 1 } else p)).map
          (fun p => { p with passedThisRound := false })) = sumMedals s.players + 1
      rw [sumMedals_eq_of_map_eq
          (map_proj_map (·.medals) (fun p => { p with passedThisRound := false })
            (fun p => rfl) _),
        sumMedals_award wid s.players hmem hnodup]
    · show (((s.players.map
          (fun p => if p.id == wid then { p with medals := p.medals + 1 } else p)).map
          (fun p => { p with passedThisRound := false })).map
          (fun p => (p.id, p.medals))) = _
      rw [map_proj_map (fun p => (p.id, p.medals))
          (fun p => { p with passedThisRound := false }) (fun p => rfl)]
      exact award_pairs wid s.players
    · intro p hp
      show p.passedThisRound = false
      obtain ⟨q, _, hq⟩ := List.mem_map.mp hp
      rw [← hq]

/-- Witness for C6: the concrete initial deal is reachable, satisfies the
medal balance, and ending the first round for `P1` awards exactly one
medal. -/
theorem medals_equal_completed_rounds_witness :
    Reachable initDemoState ∧
    (sumMedals initDemoState.players + 1 = initDemoState.roundNumber) ∧
    ((initDemoState.players.map (·.id)).Nodup ∧
      "P1" ∈ initDemoState.players.map (·.id) ∧
      sumMedals (handleRoundEnd initDemoState "P1").players =
        sumMedals initDemoState.players + 1) :=
  ⟨Reachable.init initDemoState (by decide),
    medals_equal_completed_rounds.1 initDemoState
      (Reachable.init initDemoState (by decide)),
    by decide, by decide,
    (medals_equal_completed_rounds.2 initDemoState "P1" (by decide) (by decide)).1⟩

end SFZZ
